import Mathlib

/-!
# feature-patches: sampling, patch geometry and feature table reading

A shallow embedding of `feature-patches.cpp`.

* `std::string` is a list of characters (`Str`); `std::string::npos` is `none`.
* `size_t` values are naturals, every `size_t` operation is reduced modulo `2 ^ 64`.
* `int` values are integers; results of `int` arithmetic are wrapped into the
  32-bit two's-complement range by `toInt32`.
* `float` / `double` quantities of the patch geometry are modelled by exact reals.
-/

namespace FeaturePatches

/-- A `std::string`, as its sequence of characters. -/
abbrev Str := List Char

/-- Number of values of a `size_t` (64-bit unsigned). -/
def SIZE_MOD : Nat := 2 ^ 64

/-- The two ways a run of the sampling code can fail to produce a value:
an integer division whose divisor is zero, and a loop that never ends
(reported by the model as exhausted fuel). -/
inductive Fault where
  | divisionByZero
  | outOfFuel
  deriving DecidableEq, Repr

/-- Result of a computation that may fault. -/
inductive Outcome (α : Type) where
  | ok (value : α)
  | fault (f : Fault)
  deriving DecidableEq, Repr

/-- The `struct Feature` of `feature-patches.cpp`; `F` is the type of the
floating point fields. The matrix `A` is stored entry by entry:
`A00 = A(0,0)`, `A01 = A(0,1)`, `A10 = A(1,0)`, `A11 = A(1,1)`; the field
`matches` is spelled `matches_`. -/
structure Feature (F : Type) where
  num : Int
  imageName : Str
  index : Int
  keypoint0 : F
  keypoint1 : F
  A00 : F
  A01 : F
  A10 : F
  A11 : F
  matches_ : Int
  inlierMatches : Int
  hasPoint3D : Bool
  descriptorString : Str
  deriving DecidableEq

/-! ## Partition of the features (main, lines 112-120) -/

/-- The loop `for (size_t i = 0; i < features.size(); i++)` of lines 114-120,
started at index `i` with the features from `i` on still to visit; the pair is
`(featuresWithMatchesIndices, featuresWithoutMatchesIndices)`. -/
def partitionLoop {F : Type} : List (Feature F) → Nat → List Nat × List Nat → List Nat × List Nat
  | [], _, acc => acc
  | f :: rest, i, (withMatches, withoutMatches) =>
    if f.hasPoint3D then
      partitionLoop rest (i + 1) (withMatches ++ [i], withoutMatches)
    else
      partitionLoop rest (i + 1) (withMatches, withoutMatches ++ [i])

/-- Lines 112-120: both index vectors start empty, the loop starts at `i = 0`. -/
def partitionFeatures {F : Type} (features : List (Feature F)) : List Nat × List Nat :=
  partitionLoop features 0 ([], [])

/-! ## Stride sampling (main, lines 126-141) -/

/-- The stride `mdi = (M + m - 1) / m` with `m = std::min(maxPatches, M)`
(lines 128-129, 138-139), in `size_t` arithmetic. Dividing by `m = 0` is a fault. -/
def strideOf (maxPatches M : Nat) : Outcome Nat :=
  let m := min maxPatches M
  if m = 0 then Outcome.fault Fault.divisionByZero
  else Outcome.ok (((M + m + (SIZE_MOD - 1)) % SIZE_MOD) / m)

/-- The loop `for (size_t k = 0; k < M; k += mdi) out.push_back(indices[k])`
(lines 130-131, 140-141), from position `k` with `out` already pushed. -/
def strideLoop {α : Type} (indices : List α) (mdi : Nat) : Nat → Nat → List α → Outcome (List α)
  | 0, _, _ => Outcome.fault Fault.outOfFuel
  | fuel + 1, k, out =>
    if h : k < indices.length then
      strideLoop indices mdi fuel ((k + mdi) % SIZE_MOD) (out ++ [indices[k]])
    else
      Outcome.ok out

/-- Lines 126-131 (and 136-141): the evenly spread subset of one partition. -/
def samplePatchIndices {α : Type} (maxPatches : Nat) (indices : List α) : Outcome (List α) :=
  match strideOf maxPatches indices.length with
  | Outcome.fault e => Outcome.fault e
  | Outcome.ok mdi => strideLoop indices mdi (indices.length + 1) 0 []

/-- Lines 112-141: partition, then sample the features with matches, then the
features without matches. -/
def sampleBothGroups {F : Type} (maxPatches : Nat) (features : List (Feature F)) :
    Outcome (List Nat × List Nat) :=
  match samplePatchIndices maxPatches (partitionFeatures features).1 with
  | Outcome.fault e => Outcome.fault e
  | Outcome.ok patchesWithMatchesIndices =>
    match samplePatchIndices maxPatches (partitionFeatures features).2 with
    | Outcome.fault e => Outcome.fault e
    | Outcome.ok patchesWithoutMatchesIndices =>
      Outcome.ok (patchesWithMatchesIndices, patchesWithoutMatchesIndices)

/-- Whether the feature at position `i` has a 3D point (`false` past the end). -/
def hasPoint3DAt {F : Type} (features : List (Feature F)) (i : Nat) : Bool :=
  match features[i]? with
  | some f => f.hasPoint3D
  | none => false

/-- A feature record with the given sequence number and 3D-point flag, in image
`IMG_0013.JPG`, at the keypoint `(100, 100)` with the identity frame scaled by 10. -/
def sampleRecord (n : Int) (linked : Bool) : Feature ℚ :=
  { num := n, imageName := "IMG_0013.JPG".toList, index := n, keypoint0 := 100, keypoint1 := 100,
    A00 := 10, A01 := 0, A10 := 0, A11 := 10, matches_ := 1, inlierMatches := 1,
    hasPoint3D := linked, descriptorString := [] }

/-! ## Patch geometry (main, lines 146-213) -/

/-- An `int` result: reduction into the 32-bit two's-complement range. -/
def toInt32 (z : Int) : Int := (z + 2 ^ 31) % 2 ^ 32 - 2 ^ 31

/-- Conversion of an `int` to `size_t` (reduction modulo `2 ^ 64`). -/
def toSizeT (z : Int) : Nat := (z % 2 ^ 64).toNat

/-- The `cv::Rect` of a patch. -/
structure Rect where
  x : Int
  y : Int
  width : Int
  height : Int
  deriving DecidableEq, Repr

/-- The `struct Patch` of lines 146-149. -/
structure Patch where
  imageName : Str
  rect : Rect
  deriving DecidableEq, Repr

/-- The `rectpack2D::rect_xywh` handed to the packer. -/
structure rect_xywh where
  x : Int
  y : Int
  w : Int
  h : Int
  deriving DecidableEq, Repr

/-- Line 159: `const size_t padding = 4`. -/
def padding : Nat := 4

/-- Line 160: `const auto max_side = 2000` (an `int`). -/
def max_side : Int := 2000

/-- Line 166: `constexpr double bboxScale = 1.5`. -/
noncomputable def bboxScale : ℝ := 1.5

/-- The function `std::atan2 (y, x)` over the reals: the angle in `(-π, π]` of the
point `(x, y)`, and `0` at the origin. -/
noncomputable def atan2 (y x : ℝ) : ℝ := Complex.arg ⟨x, y⟩

/-- Line 168: `scaleX = f.A.col(0).norm() * bboxScale`. -/
noncomputable def scaleX (f : Feature ℝ) : ℝ := Real.sqrt (f.A00 * f.A00 + f.A10 * f.A10) * bboxScale

/-- Line 169: `scaleY = f.A.col(1).norm() * bboxScale`. -/
noncomputable def scaleY (f : Feature ℝ) : ℝ := Real.sqrt (f.A01 * f.A01 + f.A11 * f.A11) * bboxScale

/-- Line 170: `orientation = std::atan2(f.A(1,0), f.A(0,0))`. -/
noncomputable def orientation (f : Feature ℝ) : ℝ := atan2 f.A10 f.A00

/-- Lines 171-172: `u = scaleX * (c, s)` with `c = cos(orientation)`, `s = sin(orientation)`. -/
noncomputable def ellipseU (f : Feature ℝ) : ℝ × ℝ :=
  (scaleX f * Real.cos (orientation f), scaleX f * Real.sin (orientation f))

/-- Lines 171, 173: `v = scaleY * (-s, c)`. -/
noncomputable def ellipseV (f : Feature ℝ) : ℝ × ℝ :=
  (scaleY f * (-Real.sin (orientation f)), scaleY f * Real.cos (orientation f))

/-- Line 175: `bboxWidth = sqrt(u.x*u.x + v.x*v.x)`. -/
noncomputable def bboxWidth (f : Feature ℝ) : ℝ :=
  Real.sqrt ((ellipseU f).1 * (ellipseU f).1 + (ellipseV f).1 * (ellipseV f).1)

/-- Line 176: `bboxHeight = sqrt(u.y*u.y + v.y*v.y)`. -/
noncomputable def bboxHeight (f : Feature ℝ) : ℝ :=
  Real.sqrt ((ellipseU f).2 * (ellipseU f).2 + (ellipseV f).2 * (ellipseV f).2)

/-- Lines 177-185: the integer rectangle `(x0, y0, W, H)`. -/
noncomputable def featureRect (f : Feature ℝ) : Rect :=
  let bboxLeft := f.keypoint0 - bboxWidth f
  let bboxRight := f.keypoint0 + bboxWidth f
  let bboxTop := f.keypoint1 - bboxHeight f
  let bboxBottom := f.keypoint1 + bboxHeight f
  let x0 := toInt32 ⌊bboxLeft⌋
  let y0 := toInt32 ⌊bboxTop⌋
  let W := toInt32 (toInt32 ⌈bboxRight⌉ - x0)
  let H := toInt32 (toInt32 ⌈bboxBottom⌉ - y0)
  { x := x0, y := y0, width := W, height := H }

/-- Lines 186-190: the test on `(x0, y0, W, H)` and the patch that is returned.
In `W + padding > max_side` the `int` operands are converted to `size_t`. -/
def patchOfRect (imageName : Str) (r : Rect) : Option Patch :=
  if r.width < 2 ∨ r.height < 2
      ∨ (toSizeT r.width + padding) % SIZE_MOD > toSizeT max_side
      ∨ (toSizeT r.height + padding) % SIZE_MOD > toSizeT max_side
      ∨ r.x < 0 ∨ r.y < 0 then
    none
  else
    some { imageName := imageName, rect := r }

/-- The lambda `featureToPatch` (lines 167-191); `none` is `return false`. -/
noncomputable def featureToPatch (f : Feature ℝ) : Option Patch :=
  patchOfRect f.imageName (featureRect f)

/-- Lines 196-202 (and 207-213): the patches of the sampled features that pass
`featureToPatch`, in sampling order. -/
noncomputable def patchesOf (features : List (Feature ℝ)) (patchesIndices : List Nat) : List Patch :=
  patchesIndices.filterMap (fun i =>
    match features[i]? with
    | some f => featureToPatch f
    | none => none)

/-- Lines 220-223 of `packRectangles`: the rectangles handed to the packer,
`rect_xywh(0, 0, width + padding, height + padding)`; the sums are `size_t`
values narrowed to `int`. -/
def paddedRectangles (patches : List Patch) : List rect_xywh :=
  patches.map (fun patch =>
    { x := 0, y := 0,
      w := toInt32 (((toSizeT patch.rect.width + padding) % SIZE_MOD : Nat) : Int),
      h := toInt32 (((toSizeT patch.rect.height + padding) % SIZE_MOD : Nat) : Int) })

/-- A feature at keypoint `(x, y)` whose frame has the rows `(a00, a01)` and
`(a10, a11)`. -/
noncomputable def frameFeature (x y a00 a01 a10 a11 : ℝ) : Feature ℝ :=
  { num := 0, imageName := "IMG_0013.JPG".toList, index := 0, keypoint0 := x, keypoint1 := y,
    A00 := a00, A01 := a01, A10 := a10, A11 := a11, matches_ := 1, inlierMatches := 1,
    hasPoint3D := true, descriptorString := [] }

/-! ## Reading the feature table (lines 15-85) -/

/-- The value `std::string::npos`, the largest `size_t`. -/
def npos : Nat := SIZE_MOD - 1

/-- Scan of the characters `l`, the first of which has index `i`: the index of
the first character satisfying `p`, or `npos`. -/
def findFrom (p : Char → Bool) : List Char → Nat → Nat
  | [], _ => npos
  | c :: cs, i => if p c then i else findFrom p cs (i + 1)

/-- Scan of the characters `l`, the first of which has index `i`: the index of
the last character satisfying `p`, or `best` when there is none. -/
def findLast (p : Char → Bool) : List Char → Nat → Nat → Nat
  | [], _, best => best
  | c :: cs, i, best => findLast p cs (i + 1) (if p c then i else best)

/-- The call `str.find_first_not_of(chars, pos)`. -/
def find_first_not_of (str chars : Str) (pos : Nat) : Nat :=
  findFrom (fun c => !chars.contains c) (str.drop pos) pos

/-- The call `str.find_last_not_of(chars)`. -/
def find_last_not_of (str chars : Str) : Nat :=
  findLast (fun c => !chars.contains c) str 0 npos

/-- The call `str.find(delim, pos)`. -/
def find (str : Str) (delim : Char) (pos : Nat) : Nat :=
  findFrom (fun c => c == delim) (str.drop pos) pos

/-- The call `str.substr(pos, count)`: at most `count` characters from `pos`. -/
def substr (str : Str) (pos count : Nat) : Str :=
  (str.drop pos).take count

/-- The `while` loop of `split` (lines 19-22), entered with the current values
of `end` and `strings`; `end - start` is a `size_t` difference. -/
def splitLoop (str : Str) (delim : Char) : Nat → Nat → List Str → List Str
  | 0, _, strings => strings
  | fuel + 1, end_, strings =>
    let start := find_first_not_of str [delim] end_
    if start = npos then strings
    else
      let end' := find str delim start
      splitLoop str delim fuel end'
        (strings ++ [substr str start ((end' + SIZE_MOD - start) % SIZE_MOD)])

/-- The function `split` (lines 15-24). Every pass of the loop moves `end`
forward, so `str.length + 1` passes are enough (`split_fuel`). -/
def split (str : Str) (delim : Char) : List Str :=
  splitLoop str delim (str.length + 1) 0 []

/-- The default `whitespace` argument of `trim`: `" \t\n"`. -/
def whitespace : Str := [' ', '\t', '\n']

/-- The function `trim` (lines 26-35), called with the default whitespace. -/
def trim (str : Str) : Str :=
  let strBegin := find_first_not_of str whitespace 0
  if strBegin = npos then []
  else
    let strEnd := find_last_not_of str whitespace
    let strRange := (strEnd + SIZE_MOD - strBegin + 1) % SIZE_MOD
    substr str strBegin strRange

/-- The C function `isspace` in the "C" locale. -/
def isspace (c : Char) : Bool :=
  c == ' ' || c == '\t' || c == '\n' || c == '\x0b' || c == '\x0c' || c == '\r'

/-- Value of a run of decimal digits. -/
def digitsValue (ds : List Char) : Nat :=
  ds.foldl (fun a c => 10 * a + (c.toNat - 48)) 0

/-- The library function `std::stoi(s)` (base 10): leading white space is
skipped, then an optional sign and the longest run of digits are read. `none`
stands for a thrown `std::invalid_argument` (no digit) or `std::out_of_range`
(value outside the `int` range), both of which are `std::logic_error`s. -/
def stoi (s : Str) : Option Int :=
  let s1 := s.dropWhile isspace
  let negative := s1.head? == some '-'
  let s2 := if s1.head? == some '-' || s1.head? == some '+' then s1.tail else s1
  let ds := s2.takeWhile Char.isDigit
  if ds = [] then none
  else
    let v : Int := if negative then -(digitsValue ds : Int) else (digitsValue ds : Int)
    if v < -2 ^ 31 ∨ 2 ^ 31 - 1 < v then none else some v

/-- The `try` block of `readFeatures` (lines 65-81) on the fields `str` of a
line. The library function `std::stof` is the parameter `stof`; for it and for
`stoi`, `none` stands for a thrown `std::logic_error`, and the block gives
`none` when the `catch` clause is entered. -/
def parseFeature {F : Type} (stof : Str → Option F) (str : List Str) : Option (Feature F) :=
  match stoi (trim (str.getD 0 [])) with
  | none => none
  | some num =>
  let imageName := trim (str.getD 1 [])
  match stoi (trim (str.getD 3 [])) with
  | none => none
  | some index =>
  match stof (trim (str.getD 4 [])) with
  | none => none
  | some keypoint0 =>
  match stof (trim (str.getD 5 [])) with
  | none => none
  | some keypoint1 =>
  match stof (trim (str.getD 6 [])) with
  | none => none
  | some a00 =>
  match stof (trim (str.getD 7 [])) with
  | none => none
  | some a01 =>
  match stof (trim (str.getD 8 [])) with
  | none => none
  | some a10 =>
  match stof (trim (str.getD 9 [])) with
  | none => none
  | some a11 =>
  match stoi (trim (str.getD 10 [])) with
  | none => none
  | some matches_ =>
  match stoi (trim (str.getD 11 [])) with
  | none => none
  | some inlierMatches =>
  some
    { num := num, imageName := imageName, index := index,
      keypoint0 := keypoint0, keypoint1 := keypoint1,
      A00 := a00, A01 := a01, A10 := a10, A11 := a11,
      matches_ := matches_, inlierMatches := inlierMatches,
      hasPoint3D := trim (str.getD 12 []) == "true".toList,
      descriptorString := trim (str.getD 13 []) }

/-- The `while (std::getline(is, line))` loop of `readFeatures` (lines 60-83)
over the remaining lines of the file, with the features read so far. -/
def readLoop {F : Type} (stof : Str → Option F) : List Str → List (Feature F) → List (Feature F)
  | [], features => features
  | line :: rest, features =>
    if line.length ≤ 0 ∨ line.head? = some '#' then
      readLoop stof rest features
    else
      let str := split line ','
      if str.length ≠ 14 then features
      else
        match parseFeature stof str with
        | none => readLoop stof rest features
        | some feature => readLoop stof rest (features ++ [feature])

/-- The function `readFeatures` (lines 52-85) on the lines of an opened file. -/
def readFeatures {F : Type} (stof : Str → Option F) (lines : List Str) : List (Feature F) :=
  readLoop stof lines []

/-- A decimal number as written: `mantissa / 10 ^ scale`. -/
structure Decimal where
  mantissa : Int
  scale : Nat
  deriving DecidableEq, Repr

/-- The behaviour of `std::stof` on plain decimal text (white space, an optional
sign, digits with an optional fraction), keeping the number as written; used to
run `readFeatures` on concrete tables. -/
def stofDecimal (s : Str) : Option Decimal :=
  let s1 := s.dropWhile isspace
  let negative := s1.head? == some '-'
  let s2 := if s1.head? == some '-' || s1.head? == some '+' then s1.tail else s1
  let ip := s2.takeWhile Char.isDigit
  let r := s2.dropWhile Char.isDigit
  let fp := if r.head? == some '.' then r.tail.takeWhile Char.isDigit else []
  if ip = [] ∧ fp = [] then none
  else
    let m : Int := (digitsValue (ip ++ fp) : Int)
    some { mantissa := if negative then -m else m, scale := fp.length }

/-- The header row of the feature table. -/
def headerLine : Str :=
  "N,IMGNAME,IMGID,I,KX,KY,A11,A12,A21,A22,MATCHES,INLIERS,HASPT3D,DESC".toList

/-- The example row given in the source (line 38), with a short descriptor. -/
def exampleLine : Str :=
  "4,IMG_0013.JPG,1,4,826.35,532.91,507.408661,0.000000,66.599098,108.817360,1,1,false,0a1b".toList

/-- The spec's "numeric parse failure": one of the ten numeric columns
`N, I, KX, KY, A11, A12, A21, A22, MATCHES, INLIERS` (fields 0, 3, 4, ..., 11)
has no parseable numeric text. -/
def numericColumnFails {F : Type} (stof : Str → Option F) (str : List Str) : Prop :=
  stoi (trim (str.getD 0 [])) = none ∨ stoi (trim (str.getD 3 [])) = none ∨
  stof (trim (str.getD 4 [])) = none ∨ stof (trim (str.getD 5 [])) = none ∨
  stof (trim (str.getD 6 [])) = none ∨ stof (trim (str.getD 7 [])) = none ∨
  stof (trim (str.getD 8 [])) = none ∨ stof (trim (str.getD 9 [])) = none ∨
  stoi (trim (str.getD 10 [])) = none ∨ stoi (trim (str.getD 11 [])) = none

/-- A line with three fields. -/
def shortLine : Str := "7,IMG_0013.JPG,1".toList

/-- The example row with a fifteenth field appended. -/
def extraColumnLine : Str := exampleLine ++ ",extra".toList

/-- The example row with the keypoint column `KX` left empty (thirteen fields). -/
def emptyColumnLine : Str :=
  "4,IMG_0013.JPG,1,4,,532.91,507.408661,0.000000,66.599098,108.817360,1,1,false,0a1b".toList

/-- A row of fourteen fields whose column `I` is not numeric. -/
def badNumberLine : Str :=
  "5,IMG_0013.JPG,1,x,826.35,532.91,507.408661,0.000000,66.599098,108.817360,1,1,true,0a1b".toList

/-- The example row with another image identifier in column 3. -/
def otherImageIdLine : Str :=
  "4,IMG_0013.JPG,977,4,826.35,532.91,507.408661,0.000000,66.599098,108.817360,1,1,false,0a1b".toList

/-! ## Command line (main, lines 89-98) -/

/-- The library function `std::atoi(s)`, i.e. `(int) strtol(s, nullptr, 10)`:
leading white space is skipped, then an optional sign and the longest run of
digits are read; the value is `0` when there is no digit. A value outside the
`long` range is brought to the nearest `long`, and the `long` is narrowed to
`int` (for such values the C standard leaves the result of `atoi` open). -/
def atoi (s : Str) : Int :=
  let s1 := s.dropWhile isspace
  let negative := s1.head? == some '-'
  let s2 := if s1.head? == some '-' || s1.head? == some '+' then s1.tail else s1
  let ds := s2.takeWhile Char.isDigit
  let v : Int := if negative then -(digitsValue ds : Int) else (digitsValue ds : Int)
  toInt32 (max (-2 ^ 63) (min v (2 ^ 63 - 1)))

/-- Lines 96-97: `const size_t maxPatches = std::atoi(argv[3]);` followed by
`assert(maxPatches > 10);`. The `int` is converted to `size_t`; `none` is the
failed assertion (the run aborts before `readFeatures` is called on line 103). -/
def maxPatchesOfArg (arg : Str) : Option Nat :=
  let maxPatches := toSizeT (atoi arg)
  if maxPatches > 10 then some maxPatches else none

/-! ## Compositing (main, lines 262-330) -/

/-- The `rectpack2D::rect_wh` returned by the packer: the size of the canvas. -/
structure rect_wh where
  w : Int
  h : Int
  deriving DecidableEq, Repr

/-- The colour of one pixel (the three 8-bit channels as one number); `0` is black. -/
abbrev Pixel := Nat

/-- A `cv::Mat` image: its size and the colour at column `x`, row `y`. -/
structure Mat where
  cols : Int
  rows : Int
  pixel : Int → Int → Pixel

/-- The `std::multimap<std::pair<int,int>, size_t>` from padded size to index, as
the list of its entries in insertion order. Entries with equal keys are kept by
the multimap in insertion order, and `find` is taken to return the first of them
(as the usual implementations do; the standard allows any of them). -/
abbrev SizeMap := List ((Int × Int) × Nat)

/-- Lines 269-272 (and 275-278): the loop that fills the multimap, at index `i`. -/
def sizeMapLoop : List rect_xywh → Nat → SizeMap → SizeMap
  | [], _, m => m
  | rect :: rest, i, m => sizeMapLoop rest (i + 1) (m ++ [((rect.w, rect.h), i)])

/-- Lines 268-272: the multimap built from the packed rectangles. -/
def buildSizeMap (packedRectangles : List rect_xywh) : SizeMap :=
  sizeMapLoop packedRectangles 0 []

/-- The call `sizeToRectIndexMap.find(wh)` followed by `iter->second`: the index
stored in the first entry with key `wh`; `none` is `end()`. -/
def mapFind : SizeMap → Int × Int → Option Nat
  | [], _ => none
  | (k, i) :: rest, wh => if k = wh then some i else mapFind rest wh

/-- The call `sizeToRectIndexMap.erase(iter)` for `iter = find(wh)`: the first
entry with key `wh` is removed. -/
def mapErase : SizeMap → Int × Int → SizeMap
  | [], _ => []
  | (k, i) :: rest, wh => if k = wh then rest else (k, i) :: mapErase rest wh

/-- The OpenCV operator `a & b` on `cv::Rect`: the intersection of the two
rectangles, and the empty rectangle `Rect()` when they do not meet. -/
def rectAnd (a b : Rect) : Rect :=
  let x1 := max a.x b.x
  let y1 := max a.y b.y
  let width := min (a.x + a.width) (b.x + b.width) - x1
  let height := min (a.y + a.height) (b.y + b.height) - y1
  if width ≤ 0 ∨ height ≤ 0 then { x := 0, y := 0, width := 0, height := 0 }
  else { x := x1, y := y1, width := width, height := height }

/-- The variables `currentImage`, `currentImageName`, `currentImageRect` of lines
283-285, shared by both calls of `packedPatchesImage`. -/
structure ImageCache where
  currentImage : Mat
  currentImageName : Str
  currentImageRect : Rect

/-- Lines 283-285: no image, the empty name, the empty rectangle. -/
def initialCache : ImageCache :=
  { currentImage := { cols := 0, rows := 0, pixel := fun _ _ => 0 },
    currentImageName := [],
    currentImageRect := { x := 0, y := 0, width := 0, height := 0 } }

/-- What the loop of `packedPatchesImage` did with one patch: it left the loop
body at `continue` (line 300), or it copied the patch to the region `roi` of the
canvas, found through the packed rectangle number `index`. -/
inductive PatchOutcome where
  | dropped (patch : Patch)
  | composited (patch : Patch) (index : Nat) (roi : Rect)
  deriving DecidableEq, Repr

/-- The ways `packedPatchesImage` stops early: the `assert` of line 304 fails,
the index is past the end of `packedRectangles` (line 306), or OpenCV rejects a
region that does not lie in the canvas (`packedPatches(roi)`, line 308). -/
inductive CompositeFault where
  | assertionFailed
  | indexOutOfRange
  | roiOutsideCanvas
  deriving DecidableEq, Repr

/-- The state of `packedPatchesImage` between two patches: the image cache, the
canvas `packedPatches`, the multimap, and (not in the source) the record of what
was done with the patches so far. -/
structure CompositeState where
  cache : ImageCache
  packedPatches : Mat
  sizeToRectIndexMap : SizeMap
  log : List PatchOutcome

/-- Lines 293-298: the image of the patch is loaded unless its name is the
current one. `imread` stands for `cv::imread(path, cv::IMREAD_COLOR)`, which
gives an image of size 0 x 0 when the file cannot be read. -/
def loadImage (imread : Str → Mat) (imageFolder : Str) (cache : ImageCache) (patch : Patch) :
    ImageCache :=
  if patch.imageName ≠ cache.currentImageName then
    { currentImage := imread (imageFolder ++ "/".toList ++ patch.imageName),
      currentImageName := patch.imageName,
      currentImageRect :=
        { x := 0, y := 0,
          width := (imread (imageFolder ++ "/".toList ++ patch.imageName)).cols,
          height := (imread (imageFolder ++ "/".toList ++ patch.imageName)).rows } }
  else cache

/-- Line 302: the key `(width + padding, height + padding)`; the sums are
`size_t` values, narrowed to `int` when the key is passed to `find`. -/
def paddedKey (patch : Patch) : Int × Int :=
  (toInt32 (((toSizeT patch.rect.width + padding) % SIZE_MOD : Nat) : Int),
   toInt32 (((toSizeT patch.rect.height + padding) % SIZE_MOD : Nat) : Int))

/-- Line 307: `cv::Rect roi(rect.x, rect.y, rect.w - padding, rect.h - padding)`;
the differences are `size_t` values narrowed to `int`. -/
def roiOf (rect : rect_xywh) : Rect :=
  { x := rect.x, y := rect.y,
    width := toInt32 (((toSizeT rect.w + SIZE_MOD - padding) % SIZE_MOD : Nat) : Int),
    height := toInt32 (((toSizeT rect.h + SIZE_MOD - padding) % SIZE_MOD : Nat) : Int) }

/-- OpenCV accepts `m(roi)` when the region lies in the image `m`. -/
def roiInside (m : Mat) (roi : Rect) : Prop :=
  0 ≤ roi.x ∧ 0 ≤ roi.width ∧ roi.x + roi.width ≤ m.cols ∧
  0 ≤ roi.y ∧ 0 ≤ roi.height ∧ roi.y + roi.height ≤ m.rows

instance (m : Mat) (roi : Rect) : Decidable (roiInside m roi) := by
  unfold roiInside
  exact inferInstance

/-- Line 308: `sourcePatch.copyTo(packedPatches(roi))` with
`sourcePatch = currentImage(patch.rect)`. The pixels of the source rectangle
replace those of the region `roi`; when the two sizes differ OpenCV allocates a
new destination and the canvas keeps its pixels. -/
def copyTo (currentImage : Mat) (rect : Rect) (packedPatches : Mat) (roi : Rect) : Mat :=
  if roi.width = rect.width ∧ roi.height = rect.height then
    { cols := packedPatches.cols, rows := packedPatches.rows,
      pixel := fun x y =>
        if roi.x ≤ x ∧ x < roi.x + roi.width ∧ roi.y ≤ y ∧ y < roi.y + roi.height then
          currentImage.pixel (rect.x + (x - roi.x)) (rect.y + (y - roi.y))
        else packedPatches.pixel x y }
  else packedPatches

/-- The body of the loop of `packedPatchesImage` (lines 293-309) for one patch. -/
def packedPatchesStep (imread : Str → Mat) (imageFolder : Str)
    (packedRectangles : List rect_xywh) (st : CompositeState) (patch : Patch) :
    Except CompositeFault CompositeState :=
  let cache := loadImage imread imageFolder st.cache patch
  if rectAnd patch.rect cache.currentImageRect ≠ patch.rect then
    Except.ok { cache := cache, packedPatches := st.packedPatches,
                sizeToRectIndexMap := st.sizeToRectIndexMap,
                log := st.log ++ [PatchOutcome.dropped patch] }
  else
    match mapFind st.sizeToRectIndexMap (paddedKey patch) with
    | none => Except.error CompositeFault.assertionFailed
    | some index =>
      match packedRectangles[index]? with
      | none => Except.error CompositeFault.indexOutOfRange
      | some rect =>
        if roiInside st.packedPatches (roiOf rect) then
          Except.ok
            { cache := cache,
              packedPatches := copyTo cache.currentImage patch.rect st.packedPatches (roiOf rect),
              sizeToRectIndexMap := mapErase st.sizeToRectIndexMap (paddedKey patch),
              log := st.log ++ [PatchOutcome.composited patch index (roiOf rect)] }
        else Except.error CompositeFault.roiOutsideCanvas

/-- The loop `for (auto&& patch : patches)` of lines 292-310. -/
def packedPatchesLoop (imread : Str → Mat) (imageFolder : Str)
    (packedRectangles : List rect_xywh) : List Patch → CompositeState →
    Except CompositeFault CompositeState
  | [], st => Except.ok st
  | patch :: rest, st =>
    match packedPatchesStep imread imageFolder packedRectangles st patch with
    | Except.error e => Except.error e
    | Except.ok st' => packedPatchesLoop imread imageFolder packedRectangles rest st'

/-- The lambda `packedPatchesImage` (lines 287-312): a black canvas of the size
found by the packer, then the loop over the patches. The result carries the
canvas together with the image cache and the multimap as the call leaves them. -/
def packedPatchesImage (imread : Str → Mat) (imageFolder : Str) (cache : ImageCache)
    (patches : List Patch) (packedRectangles : List rect_xywh) (sizeToRectIndexMap : SizeMap)
    (packedImageSize : rect_wh) : Except CompositeFault CompositeState :=
  packedPatchesLoop imread imageFolder packedRectangles patches
    { cache := cache,
      packedPatches := { cols := packedImageSize.w, rows := packedImageSize.h,
                         pixel := fun _ _ => 0 },
      sizeToRectIndexMap := sizeToRectIndexMap,
      log := [] }

/-- Number of patches the loop left at `continue`. -/
def droppedCount (log : List PatchOutcome) : Nat :=
  (log.filter (fun o => match o with
    | PatchOutcome.dropped _ => true
    | PatchOutcome.composited _ _ _ => false)).length

/-- Number of patches the loop copied to the canvas. -/
def compositedCount (log : List PatchOutcome) : Nat :=
  (log.filter (fun o => match o with
    | PatchOutcome.dropped _ => false
    | PatchOutcome.composited _ _ _ => true)).length

/-- The rectangle numbers used by the patches that were copied, in order. -/
def usedIndices : List PatchOutcome → List Nat
  | [] => []
  | PatchOutcome.dropped _ :: rest => usedIndices rest
  | PatchOutcome.composited _ index _ :: rest => index :: usedIndices rest

/-- An image reader for examples: the file `images/IMG_0013.JPG` has 640 columns
and 480 rows, the pixel at `(x, y)` has the colour `1000 * y + x + 1`; every
other file cannot be read. -/
def sampleImread (path : Str) : Mat :=
  if path = "images/IMG_0013.JPG".toList then
    { cols := 640, rows := 480, pixel := fun x y => (1000 * y + x + 1).toNat }
  else { cols := 0, rows := 0, pixel := fun _ _ => 0 }

/-- A patch of 30 x 30 pixels at `(x, y)` in the image `name`. -/
def squarePatch (name : String) (x y : Int) : Patch :=
  { imageName := name.toList, rect := { x := x, y := y, width := 30, height := 30 } }

/-- The patch an entry of the record is about. -/
def loggedPatch : PatchOutcome → Patch
  | PatchOutcome.dropped patch => patch
  | PatchOutcome.composited patch _ _ => patch

/-- Three patches of the image `IMG_0013.JPG`; the second one reaches past the
right border of the 640 x 480 image. -/
def samplePatches : List Patch :=
  [squarePatch "IMG_0013.JPG" 5 5, squarePatch "IMG_0013.JPG" 630 5,
   squarePatch "IMG_0013.JPG" 100 100]

/-- A packing of three rectangles of 34 x 34 in a canvas of 68 x 68. -/
def samplePacking : List rect_xywh :=
  [{ x := 0, y := 0, w := 34, h := 34 }, { x := 34, y := 0, w := 34, h := 34 },
   { x := 0, y := 34, w := 34, h := 34 }]

/-- The image cache is consistent: `currentImageRect` is the rectangle
`(0, 0, cols, rows)` of `currentImage`, as line 297 sets it (and as lines 283-285
leave it at the start). -/
def cacheConsistent (cache : ImageCache) : Prop :=
  cache.currentImageRect =
    { x := 0, y := 0, width := cache.currentImage.cols, height := cache.currentImage.rows }

/-- Whether the feature number `i` passes the geometry test of `featureToPatch`. -/
noncomputable def passesGeometry (features : List (Feature ℝ)) (i : Nat) : Bool :=
  match features[i]? with
  | some f => (featureToPatch f).isSome
  | none => false

/-! ## Rectangle packing (main, lines 154-161 and 218-260) -/

/-- Line 161: `const auto discard_step = -4`. -/
def discard_step : Int := -4

/-- Two rectangles do not overlap: one lies to the left of, to the right of,
above or below the other. -/
def rectsDisjoint (a b : rect_xywh) : Prop :=
  a.x + a.w ≤ b.x ∨ b.x + b.w ≤ a.x ∨ a.y + a.h ≤ b.y ∨ b.y + b.h ≤ a.y

instance (a b : rect_xywh) : Decidable (rectsDisjoint a b) := by
  unfold rectsDisjoint
  exact inferInstance

/-- The rectangle `a` lies in the rectangle `b`. -/
def rectWithin (a b : rect_xywh) : Prop :=
  b.x ≤ a.x ∧ a.x + a.w ≤ b.x + b.w ∧ b.y ≤ a.y ∧ a.y + a.h ≤ b.y + b.h

/-- Modelled from the spec: the packer `rectpack2D::find_best_packing` is not
under `src/`; this is the "space-splitting placement" of section 4.4 for one
rectangle of size `w x h`. The first empty space that is large enough receives
the rectangle in its corner, and what is left of the space is split into the
part to the right of the rectangle and the part below it. `none`: no empty space
is large enough. Rectangles are never rotated. -/
def insertRect : List rect_xywh → Int → Int → Option (rect_xywh × List rect_xywh)
  | [], _, _ => none
  | s :: rest, w, h =>
    if w ≤ s.w ∧ h ≤ s.h then
      some ({ x := s.x, y := s.y, w := w, h := h },
            { x := s.x + w, y := s.y, w := s.w - w, h := h } ::
            { x := s.x, y := s.y + h, w := s.w, h := s.h - h } :: rest)
    else
      match insertRect rest w h with
      | none => none
      | some (placed, rest') => some (placed, s :: rest')

/-- Modelled from the spec: the packer is not under `src/`; this is one
placement attempt of section 4.4 on the given empty spaces, for the rectangles in
the given order. A rectangle that fits is returned with its position and the flag
`true`; one that does not fit is "recorded as unpacked" (flag `false`, position
unchanged) and the attempt continues with the next rectangle. -/
def placeAll : List rect_xywh → List rect_xywh → List (rect_xywh × Bool)
  | [], _ => []
  | r :: rest, spaces =>
    match insertRect spaces r.w r.h with
    | some (placed, spaces') => (placed, true) :: placeAll rest spaces'
    | none => (r, false) :: placeAll rest spaces

/-- Modelled from the spec: the packer is not under `src/`; a placement attempt
on an empty square canvas of the given side. -/
def packInto (side : Int) (order : List rect_xywh) : List (rect_xywh × Bool) :=
  placeAll order [{ x := 0, y := 0, w := side, h := side }]

/-- Modelled from the spec: the packer is not under `src/`; the "growing" search
of section 4.4. Starting from the candidate side `side`, a placement is
attempted; if some rectangle does not fit, the canvas grows by `step` and the
attempt is repeated; once the side has reached `maxSide` growth is exhausted and
the attempt on the canvas of side `maxSide` is returned with its unpacked
rectangles. The first argument bounds the number of growth steps. -/
def growLoop (order : List rect_xywh) (maxSide step : Int) : Nat → Int → List (rect_xywh × Bool)
  | 0, _ => packInto maxSide order
  | fuel + 1, side =>
    if maxSide ≤ side then packInto maxSide order
    else if (packInto side order).all (fun r => r.2) then packInto side order
    else growLoop order maxSide step fuel (side + step)

/-- The rectangles of a packing that were given a position. -/
def placedRects (out : List (rect_xywh × Bool)) : List rect_xywh :=
  (out.filter (fun r => r.2)).map (fun r => r.1)

/-- Modelled from the spec: the packer is not under `src/`; the "minimal bounding
canvas size" of section 4.4: the smallest canvas with corner `(0, 0)` that holds
all the given rectangles. -/
def rectsBound : List rect_xywh → rect_wh
  | [] => { w := 0, h := 0 }
  | r :: rest => { w := max (r.x + r.w) (rectsBound rest).w, h := max (r.y + r.h) (rectsBound rest).h }

/-- The outcome of `packRectangles`: the rectangle vector after packing (each
rectangle with the flag "was given a position"), the canvas size `result_size`,
and the counter `failCount`. -/
structure Packing where
  rectangles : List (rect_xywh × Bool)
  result_size : rect_wh
  failCount : Nat
  deriving DecidableEq, Repr

/-- Modelled from the spec: `rectpack2D::find_best_packing` is not under `src/`;
section 4.4: the rectangles are taken "in order of decreasing size" (area), the
growing search is run from the candidate side `startSide` (which the spec leaves
open) with the step `|discard_step|`, and the result is the packing together with
the bounding size of the placed rectangles and the number of unpacked ones. -/
def find_best_packing (rectangles : List rect_xywh) (maxSide discardStep startSide : Int) :
    Packing :=
  let order := rectangles.insertionSort (fun a b => b.w * b.h ≤ a.w * a.h)
  let out := growLoop order maxSide (discardStep.natAbs : Int) (maxSide.toNat + 1) startSide
  { rectangles := out,
    result_size := rectsBound (placedRects out),
    failCount := (out.filter (fun r => !r.2)).length }

/-- The lambda `packRectangles` (lines 218-247): the padded rectangles of the
patches are handed to the packer with `max_side`, `discard_step` and flipping
disabled; both callbacks answer `CONTINUE_PACKING`, the second one counting the
failures. -/
def packRectangles (startSide : Int) (patches : List Patch) : Packing :=
  find_best_packing (paddedRectangles patches) max_side discard_step startSide

/-- The spec's white space of a field: a space, a tab or a newline. -/
def isBlank (c : Char) : Bool := c == ' ' || c == '\t' || c == '\n'

/-- The spec's "trimmed" field, written from the spec's words and not from the
code of `trim`: the field without its leading and without its trailing white
space. -/
def stripped (s : Str) : Str :=
  ((s.dropWhile isBlank).reverse.dropWhile isBlank).reverse

/-- The example row with white space around several fields, the third column
changed, and `true` in column 13. -/
def spacedLine : Str :=
  " 4 , IMG_0013.JPG\t,977, 4 ,826.35,532.91,507.408661,0.000000,66.599098,108.817360,1,1, true ,\t0a1b ".toList

/-- The row `spacedLine` with another image identifier in column 3. -/
def spacedOtherIdLine : Str :=
  " 4 , IMG_0013.JPG\t,1, 4 ,826.35,532.91,507.408661,0.000000,66.599098,108.817360,1,1, true ,\t0a1b ".toList

/-! # Theorems -/

set_option maxRecDepth 100000

/-! ## Sampling: auxiliary facts -/

theorem lt_ceilDiv_iff (L s j : Nat) (hs : 0 < s) : j < (L + s - 1) / s ↔ j * s < L := by
  rw [Nat.lt_iff_add_one_le, Nat.le_div_iff_mul_le hs, Nat.add_mul]
  omega

theorem strideOf_value (K L : Nat) (hK : 1 ≤ K) (hL : 1 ≤ L) (hsz : L < 2 ^ 63) :
    strideOf K L = Outcome.ok ((L + min K L - 1) / min K L) := by
  have hm : 1 ≤ min K L := Nat.le_min.mpr ⟨hK, hL⟩
  have hmL : min K L ≤ L := Nat.min_le_right K L
  have hmod : (L + min K L + (SIZE_MOD - 1)) % SIZE_MOD = L + min K L - 1 := by
    simp only [SIZE_MOD]
    omega
  unfold strideOf
  simp only [hmod]
  rw [if_neg (by omega)]

theorem stride_pos (m L : Nat) (hm : 1 ≤ m) (hL : 1 ≤ L) : 0 < (L + m - 1) / m := by
  apply Nat.div_pos <;> omega

theorem stride_le (m L : Nat) (hm : 1 ≤ m) (hL : 1 ≤ L) : (L + m - 1) / m ≤ L := by
  rw [← Nat.lt_add_one_iff, Nat.div_lt_iff_lt_mul (by omega)]
  calc L + m - 1 < L + m := by omega
    _ ≤ L * m + m := by
      have : L * 1 ≤ L * m := Nat.mul_le_mul_left L hm
      omega
    _ = (L + 1) * m := by ring

theorem strideLoop_run {α : Type} (indices : List α) (s : Nat) (hs : 0 < s)
    (hsb : s < 2 ^ 63) (hsz : indices.length < 2 ^ 63) :
    ∀ (fuel j : Nat) (out : List α),
      (indices.length + s - 1) / s - j < fuel → j ≤ (indices.length + s - 1) / s →
      ∃ g, strideLoop indices s fuel (j * s) out = Outcome.ok (out ++ g) ∧
        g.length = (indices.length + s - 1) / s - j ∧
        ∀ i, i < g.length → g[i]? = indices[(j + i) * s]? := by
  intro fuel
  induction fuel with
  | zero => intro j out h; omega
  | succ fuel ih =>
    intro j out hfuel hj
    by_cases hlt : j * s < indices.length
    · have hjn : j < (indices.length + s - 1) / s := (lt_ceilDiv_iff _ s j hs).mpr hlt
      have hnext : (j * s + s) % SIZE_MOD = (j + 1) * s := by
        have : j * s + s < SIZE_MOD := by simp only [SIZE_MOD]; omega
        rw [Nat.mod_eq_of_lt this, Nat.add_mul, Nat.one_mul]
      obtain ⟨g, hrun, hlen, hget⟩ := ih (j + 1) (out ++ [indices[j * s]]) (by omega) (by omega)
      refine ⟨indices[j * s] :: g, ?_, ?_, ?_⟩
      · rw [strideLoop, dif_pos hlt, hnext, hrun, List.append_assoc, List.singleton_append]
      · simp only [List.length_cons, hlen]; omega
      · intro i hi
        cases i with
        | zero => simp
        | succ i =>
          simp only [List.length_cons] at hi
          have := hget i (by omega)
          simp only [List.getElem?_cons_succ, this]
          congr 2; omega
    · have hjn : ¬ j < (indices.length + s - 1) / s := fun h => hlt ((lt_ceilDiv_iff _ s j hs).mp h)
      refine ⟨[], ?_, ?_, ?_⟩
      · rw [strideLoop, dif_neg hlt, List.append_nil]
      · simp only [List.length_nil]; omega
      · intro i hi; simp at hi

/-- The common description of one sampled group: stride `s = (L + m - 1) / m`,
`n = (L + s - 1) / s` samples, the `j`-th of which is the element at `j * s`. -/
theorem samplePatchIndices_run {α : Type} (K : Nat) (indices : List α) (hK : 1 ≤ K)
    (hL : 1 ≤ indices.length) (hsz : indices.length < 2 ^ 63) :
    ∃ g, samplePatchIndices K indices = Outcome.ok g ∧
      g.length = (indices.length + (indices.length + min K indices.length - 1) / min K indices.length - 1)
          / ((indices.length + min K indices.length - 1) / min K indices.length) ∧
      ∀ j, j < g.length →
        g[j]? = indices[j * ((indices.length + min K indices.length - 1) / min K indices.length)]? := by
  have hm : 1 ≤ min K indices.length := Nat.le_min.mpr ⟨hK, hL⟩
  have hs := stride_pos _ _ hm hL
  have hsle := stride_le _ _ hm hL
  obtain ⟨g, hrun, hlen, hget⟩ := strideLoop_run indices _ hs (by omega) hsz
    (indices.length + 1) 0 [] (by
      have := Nat.div_le_self (indices.length +
        (indices.length + min K indices.length - 1) / min K indices.length - 1)
        ((indices.length + min K indices.length - 1) / min K indices.length)
      have h2 := lt_ceilDiv_iff indices.length _ indices.length hs
      have h3 : ¬ indices.length * ((indices.length + min K indices.length - 1) / min K indices.length)
          < indices.length := by
        intro h
        have := Nat.le_mul_of_pos_right indices.length hs
        omega
      have h4 := mt h2.mp h3
      omega) (Nat.zero_le _)
  refine ⟨g, ?_, ?_, ?_⟩
  · unfold samplePatchIndices
    rw [strideOf_value K _ hK hL hsz]
    simpa using hrun
  · simpa using hlen
  · intro j hj
    simpa using hget j hj

theorem ceil_div_eq (a b : Nat) (hb : 0 < b) : ⌈(a : ℚ) / (b : ℚ)⌉₊ = (a + b - 1) / b := by
  apply eq_of_forall_ge_iff
  intro c
  have hbq : (0 : ℚ) < (b : ℚ) := by exact_mod_cast hb
  have hcast : (a : ℚ) ≤ (c : ℚ) * (b : ℚ) ↔ a ≤ c * b := by exact_mod_cast Iff.rfl
  rw [Nat.ceil_le, div_le_iff₀ hbq, hcast, ← not_lt, ← lt_ceilDiv_iff a b c hb, not_lt]

theorem samples_le_cap (m L : Nat) (hm : 1 ≤ m) (hL : 1 ≤ L) :
    (L + (L + m - 1) / m - 1) / ((L + m - 1) / m) ≤ m := by
  have hs := stride_pos m L hm hL
  rw [← not_lt, lt_ceilDiv_iff L _ m hs, not_lt]
  have h := (lt_ceilDiv_iff L m ((L + m - 1) / m) (by omega)).mp
  by_contra hc
  have h1 : m * ((L + m - 1) / m) ≤ L + m - 1 := Nat.mul_div_le _ _
  have h2 : L + m - 1 < m * ((L + m - 1) / m) + m := Nat.lt_mul_div_succ _ (by omega)
  omega

/-- C1: for a partition of length `L >= 1` (a vector, so `L < 2^63`) and a cap
`K > 10`, the stride sampler returns a group, the group has at most `min K L`
elements, and when `L <= K` the group is the whole partition in its original order. -/
theorem sample_at_most_cap_and_all_when_short {α : Type} (K : Nat) (indices : List α)
    (hL : 1 ≤ indices.length) (hK : 10 < K) (hsz : indices.length < 2 ^ 63) :
    ∃ g, samplePatchIndices K indices = Outcome.ok g ∧
      g.length ≤ min K indices.length ∧
      (indices.length ≤ K → g = indices) := by
  obtain ⟨g, hrun, hlen, hget⟩ := samplePatchIndices_run K indices (by omega) hL hsz
  have hm : 1 ≤ min K indices.length := Nat.le_min.mpr ⟨by omega, hL⟩
  refine ⟨g, hrun, ?_, ?_⟩
  · rw [hlen]
    exact samples_le_cap _ _ hm hL
  · intro hLK
    have hmin : min K indices.length = indices.length := Nat.min_eq_right hLK
    have hs1 : (indices.length + indices.length - 1) / indices.length = 1 := by
      apply Nat.div_eq_of_lt_le <;> omega
    rw [hmin, hs1] at hlen hget
    have hlen2 : g.length = indices.length := by simpa using hlen
    apply List.ext_getElem? 
    intro j
    by_cases hj : j < g.length
    · simpa using hget j hj
    · rw [List.getElem?_eq_none (by omega), List.getElem?_eq_none (by omega)]

/-- A concrete instance of C1: cap 20, a partition of three records. -/
theorem sample_at_most_cap_and_all_when_short_witness :
    ∃ g, samplePatchIndices 20 [7, 8, 9] = Outcome.ok g ∧
      g.length ≤ min 20 [7, 8, 9].length ∧ ([7, 8, 9].length ≤ 20 → g = [7, 8, 9]) :=
  sample_at_most_cap_and_all_when_short 20 [7, 8, 9] (by decide) (by decide) (by decide)

/-- C2: for a partition of length `L >= 1` (a vector, so `L < 2^63`) and a cap
`K >= 1`, with `s = ceil (L / min K L)` and `n = ceil (L / s)`, the sampler
returns exactly `n` elements, the `j`-th being the partition element at position
`j * s` (so consecutive samples are `s` positions apart); for `L = 50`, `K = 5`
these are the positions `0, 10, 20, 30, 40`. -/
theorem sample_is_every_stride_th {α : Type} (K : Nat) (indices : List α)
    (hL : 1 ≤ indices.length) (hK : 1 ≤ K) (hsz : indices.length < 2 ^ 63) :
    ∃ g, samplePatchIndices K indices = Outcome.ok g ∧
      g.length = ⌈(indices.length : ℚ) / (⌈(indices.length : ℚ) / (min K indices.length : ℕ)⌉₊ : ℕ)⌉₊ ∧
      (∀ j, j < g.length →
        j * ⌈(indices.length : ℚ) / (min K indices.length : ℕ)⌉₊ < indices.length ∧
        g[j]? = indices[j * ⌈(indices.length : ℚ) / (min K indices.length : ℕ)⌉₊]?) ∧
      (∀ j, j + 1 < g.length →
        (j + 1) * ⌈(indices.length : ℚ) / (min K indices.length : ℕ)⌉₊
          - j * ⌈(indices.length : ℚ) / (min K indices.length : ℕ)⌉₊
          = ⌈(indices.length : ℚ) / (min K indices.length : ℕ)⌉₊) ∧
      (K = 5 → indices.length = 50 →
        g.length = 5 ∧ g[0]? = indices[0]? ∧ g[1]? = indices[10]? ∧ g[2]? = indices[20]? ∧
        g[3]? = indices[30]? ∧ g[4]? = indices[40]?) := by
  obtain ⟨g, hrun, hlen, hget⟩ := samplePatchIndices_run K indices hK hL hsz
  have hm : 1 ≤ min K indices.length := Nat.le_min.mpr ⟨hK, hL⟩
  have hs := stride_pos _ _ hm hL
  rw [ceil_div_eq indices.length (min K indices.length) (by omega),
    ceil_div_eq indices.length _ hs]
  refine ⟨g, hrun, hlen, ?_, ?_, ?_⟩
  · intro j hj
    refine ⟨?_, hget j hj⟩
    rw [hlen] at hj
    exact (lt_ceilDiv_iff _ _ j hs).mp hj
  · intro j _
    rw [Nat.add_mul, Nat.one_mul, Nat.add_sub_cancel_left]
  · intro h5 h50
    subst h5
    rw [h50] at hlen hget
    have hlen5 : g.length = 5 := by rw [hlen]; decide
    refine ⟨hlen5, ?_, ?_, ?_, ?_, ?_⟩
    · simpa using hget 0 (by omega)
    · simpa using hget 1 (by omega)
    · simpa using hget 2 (by omega)
    · simpa using hget 3 (by omega)
    · simpa using hget 4 (by omega)

/-- A concrete instance of C2: cap 5 and the partition `0, 1, ..., 49`. -/
theorem sample_is_every_stride_th_witness :
    ∃ g, samplePatchIndices 5 (List.range 50) = Outcome.ok g ∧ g.length = 5 ∧
      g[0]? = some 0 ∧ g[1]? = some 10 ∧ g[2]? = some 20 ∧ g[3]? = some 30 ∧ g[4]? = some 40 := by
  obtain ⟨g, hrun, _, _, _, h⟩ :=
    sample_is_every_stride_th 5 (List.range 50) (by decide) (by decide) (by decide)
  obtain ⟨h5, h0, h1, h2, h3, h4⟩ := h rfl (by decide)
  exact ⟨g, hrun, h5, by simpa using h0, by simpa using h1, by simpa using h2,
    by simpa using h3, by simpa using h4⟩

/-! ## Partition: auxiliary facts -/

theorem partitionLoop_eq {F : Type} (features : List (Feature F)) :
    ∀ (i : Nat) (a b : List Nat),
      partitionLoop features i (a, b) =
        (a ++ (List.range' i features.length).filter (fun k => hasPoint3DAt features (k - i)),
         b ++ (List.range' i features.length).filter (fun k => !hasPoint3DAt features (k - i))) := by
  induction features with
  | nil => intro i a b; simp [partitionLoop]
  | cons f rest ih =>
    intro i a b
    have hshift : ∀ k ∈ List.range' (i + 1) rest.length,
        hasPoint3DAt (f :: rest) (k - i) = hasPoint3DAt rest (k - (i + 1)) := by
      intro k hk
      have hk1 : i + 1 ≤ k := (List.mem_range'_1.mp hk).1
      have : k - i = (k - (i + 1)) + 1 := by omega
      rw [this]
      simp [hasPoint3DAt]
    have hA : (List.range' (i + 1) rest.length).filter (fun k => hasPoint3DAt (f :: rest) (k - i))
        = (List.range' (i + 1) rest.length).filter (fun k => hasPoint3DAt rest (k - (i + 1))) :=
      List.filter_congr (fun k hk => hshift k hk)
    have hB : (List.range' (i + 1) rest.length).filter (fun k => !hasPoint3DAt (f :: rest) (k - i))
        = (List.range' (i + 1) rest.length).filter (fun k => !hasPoint3DAt rest (k - (i + 1))) :=
      List.filter_congr (fun k hk => by rw [hshift k hk])
    have hhead : hasPoint3DAt (f :: rest) (i - i) = f.hasPoint3D := by simp [hasPoint3DAt]
    simp only [List.length_cons, List.range'_succ, List.filter_cons, hhead, hA, hB]
    by_cases hf : f.hasPoint3D = true
    · simp [partitionLoop, hf, ih]
    · simp [partitionLoop, hf, ih]

theorem partitionFeatures_eq {F : Type} (features : List (Feature F)) :
    partitionFeatures features =
      ((List.range features.length).filter (fun k => hasPoint3DAt features k),
       (List.range features.length).filter (fun k => !hasPoint3DAt features k)) := by
  unfold partitionFeatures
  rw [partitionLoop_eq, List.range_eq_range']
  simp

theorem hasPoint3DAt_eq {F : Type} (features : List (Feature F)) (i : Nat) (b : Bool)
    (hi : i < features.length) : hasPoint3DAt features i = b ↔ features[i].hasPoint3D = b := by
  simp [hasPoint3DAt, List.getElem?_eq_getElem hi]

/-- C3: the partition step returns the strictly increasing list of the indices
whose feature has a 3D point and the strictly increasing list of the indices
whose feature has none; every index below `N` occurs exactly once, in exactly
one of the two lists. -/
theorem partition_is_stable_split {F : Type} (features : List (Feature F)) :
    List.Sorted (· < ·) (partitionFeatures features).1 ∧
    List.Sorted (· < ·) (partitionFeatures features).2 ∧
    (∀ i, i ∈ (partitionFeatures features).1 ↔
      ∃ h : i < features.length, features[i].hasPoint3D = true) ∧
    (∀ i, i ∈ (partitionFeatures features).2 ↔
      ∃ h : i < features.length, features[i].hasPoint3D = false) ∧
    (∀ i, i < features.length →
      (partitionFeatures features).1.count i + (partitionFeatures features).2.count i = 1) ∧
    (∀ i, features.length ≤ i →
      i ∉ (partitionFeatures features).1 ∧ i ∉ (partitionFeatures features).2) := by
  rw [partitionFeatures_eq]
  have hsorted : List.Sorted (· < ·) (List.range features.length) := List.sorted_lt_range _
  have hmemA : ∀ i, i ∈ (List.range features.length).filter (fun k => hasPoint3DAt features k) ↔
      ∃ h : i < features.length, features[i].hasPoint3D = true := by
    intro i
    rw [List.mem_filter, List.mem_range]
    constructor
    · rintro ⟨hi, h⟩
      exact ⟨hi, (hasPoint3DAt_eq features i true hi).mp h⟩
    · rintro ⟨hi, h⟩
      exact ⟨hi, (hasPoint3DAt_eq features i true hi).mpr h⟩
  have hmemB : ∀ i, i ∈ (List.range features.length).filter (fun k => !hasPoint3DAt features k) ↔
      ∃ h : i < features.length, features[i].hasPoint3D = false := by
    intro i
    rw [List.mem_filter, List.mem_range]
    constructor
    · rintro ⟨hi, h⟩
      exact ⟨hi, (hasPoint3DAt_eq features i false hi).mp (by simpa using h)⟩
    · rintro ⟨hi, h⟩
      exact ⟨hi, by simpa using (hasPoint3DAt_eq features i false hi).mpr h⟩
  refine ⟨hsorted.filter _, hsorted.filter _, hmemA, hmemB, ?_, ?_⟩
  · intro i hi
    have hcount : (List.range features.length).count i = 1 :=
      List.count_eq_one_of_mem (List.nodup_range _) (List.mem_range.mpr hi)
    by_cases h : hasPoint3DAt features i = true
    · rw [List.count_filter (by simpa using h), hcount,
        List.count_eq_zero_of_not_mem (by simp [List.mem_filter, h])]
    · rw [List.count_eq_zero_of_not_mem (by simp [List.mem_filter, h]),
        List.count_filter (by simpa using h), hcount]
  · intro i hi
    constructor
    · rw [hmemA]; rintro ⟨h, _⟩; omega
    · rw [hmemB]; rintro ⟨h, _⟩; omega

/-- C4 (the code faults): with three linked records, no unlinked record and
`maxPatches = 20`, the linked partition `[0, 1, 2]` is sampled in full, but the
unlinked partition is empty, `q = min 20 0 = 0`, and the stride `(Q + q - 1) / q`
divides by zero: sampling both groups does not complete. -/
theorem empty_partition_divides_by_zero :
    partitionFeatures [sampleRecord 0 true, sampleRecord 1 true, sampleRecord 2 true]
      = ([0, 1, 2], []) ∧
    samplePatchIndices 20 [0, 1, 2] = Outcome.ok [0, 1, 2] ∧
    strideOf 20 ([] : List Nat).length = Outcome.fault Fault.divisionByZero ∧
    sampleBothGroups 20 [sampleRecord 0 true, sampleRecord 1 true, sampleRecord 2 true]
      = Outcome.fault Fault.divisionByZero := by
  refine ⟨by decide, by decide, by decide, by decide⟩

/-! ## Patch geometry: the acceptance test -/

theorem toInt32_range (z : Int) : -2 ^ 31 ≤ toInt32 z ∧ toInt32 z < 2 ^ 31 := by
  unfold toInt32
  omega

theorem toInt32_of_range (z : Int) (h1 : -2 ^ 31 ≤ z) (h2 : z < 2 ^ 31) : toInt32 z = z := by
  unfold toInt32
  omega

theorem unsigned_test_iff (w : Int) (h1 : -2 ^ 31 ≤ w) (h2 : w < 2 ^ 31) :
    (w < 2 ∨ (toSizeT w + padding) % SIZE_MOD > toSizeT max_side) ↔ (w < 2 ∨ w + 4 > 2000) := by
  simp only [toSizeT, padding, SIZE_MOD, max_side]
  omega

theorem or_test_congr {a b c d e f c' d' : Prop} (h1 : (a ∨ c) ↔ (a ∨ c'))
    (h2 : (b ∨ d) ↔ (b ∨ d')) :
    (a ∨ b ∨ c ∨ d ∨ e ∨ f) ↔ (a ∨ b ∨ c' ∨ d' ∨ e ∨ f) := by
  tauto

theorem patchOfRect_eq_none_iff (name : Str) (r : Rect)
    (hw : -2 ^ 31 ≤ r.width ∧ r.width < 2 ^ 31) (hh : -2 ^ 31 ≤ r.height ∧ r.height < 2 ^ 31) :
    patchOfRect name r = none ↔
      (r.width < 2 ∨ r.height < 2 ∨ r.width + 4 > 2000 ∨ r.height + 4 > 2000 ∨ r.x < 0 ∨ r.y < 0) := by
  rw [← or_test_congr (unsigned_test_iff r.width hw.1 hw.2) (unsigned_test_iff r.height hh.1 hh.2)]
  unfold patchOfRect
  split
  · rename_i h
    exact ⟨fun _ => h, fun _ => rfl⟩
  · rename_i h
    exact ⟨fun hc => Option.noConfusion hc, fun hc => absurd hc h⟩

theorem patchOfRect_eq_some (name : Str) (r : Rect) (p : Patch) (h : patchOfRect name r = some p) :
    p = { imageName := name, rect := r } := by
  unfold patchOfRect at h
  split at h
  · exact Option.noConfusion h
  · exact (Option.some.inj h).symm

theorem featureRect_range (f : Feature ℝ) :
    (-2 ^ 31 ≤ (featureRect f).width ∧ (featureRect f).width < 2 ^ 31) ∧
    (-2 ^ 31 ≤ (featureRect f).height ∧ (featureRect f).height < 2 ^ 31) :=
  ⟨toInt32_range _, toInt32_range _⟩

theorem padded_value (w : Int) (h1 : 2 ≤ w) (h2 : w ≤ 1996) :
    toInt32 (((toSizeT w + padding) % SIZE_MOD : Nat) : Int) = w + 4 := by
  simp only [toSizeT, padding, SIZE_MOD, toInt32]
  omega

/-- C5: `featureToPatch` rejects a feature exactly when the rectangle
`(x0, y0, W, H)` it computed has `W < 2`, `H < 2`, `W + 4 > 2000`, `H + 4 > 2000`,
`x0 < 0` or `y0 < 0`; an accepted patch carries that rectangle, with `x0, y0 >= 0`
and `2 <= W, H <= 1996`; and every rectangle handed to the packer is the padded
size `(W + 4, H + 4)` of an accepted patch, with both sides at most 2000. -/
theorem featureToPatch_rejects_iff (f : Feature ℝ) :
    (featureToPatch f = none ↔
      ((featureRect f).width < 2 ∨ (featureRect f).height < 2 ∨
       (featureRect f).width + 4 > 2000 ∨ (featureRect f).height + 4 > 2000 ∨
       (featureRect f).x < 0 ∨ (featureRect f).y < 0)) ∧
    (∀ p, featureToPatch f = some p →
      p.imageName = f.imageName ∧ p.rect = featureRect f ∧
      0 ≤ p.rect.x ∧ 0 ≤ p.rect.y ∧
      2 ≤ p.rect.width ∧ p.rect.width ≤ 1996 ∧ 2 ≤ p.rect.height ∧ p.rect.height ≤ 1996 ∧
      paddedRectangles [p] = [{ x := 0, y := 0, w := p.rect.width + 4, h := p.rect.height + 4 }]) ∧
    (∀ (features : List (Feature ℝ)) (patchesIndices : List Nat) (r : rect_xywh),
      r ∈ paddedRectangles (patchesOf features patchesIndices) → r.w ≤ 2000 ∧ r.h ≤ 2000) := by
  have key : ∀ (g : Feature ℝ) (p : Patch), featureToPatch g = some p →
      p.imageName = g.imageName ∧ p.rect = featureRect g ∧
      0 ≤ p.rect.x ∧ 0 ≤ p.rect.y ∧
      2 ≤ p.rect.width ∧ p.rect.width ≤ 1996 ∧ 2 ≤ p.rect.height ∧ p.rect.height ≤ 1996 := by
    intro g p hp
    have hrange := featureRect_range g
    have hnot : ¬ featureToPatch g = none := by rw [hp]; exact fun hc => Option.noConfusion hc
    have hiff := patchOfRect_eq_none_iff g.imageName (featureRect g) hrange.1 hrange.2
    unfold featureToPatch at hnot hp
    rw [hiff] at hnot
    have hpe := patchOfRect_eq_some _ _ p hp
    subst hpe
    refine ⟨rfl, rfl, ?_, ?_, ?_, ?_, ?_, ?_⟩ <;> simp only [] <;> omega
  refine ⟨?_, ?_, ?_⟩
  · have hrange := featureRect_range f
    exact patchOfRect_eq_none_iff f.imageName (featureRect f) hrange.1 hrange.2
  · intro p hp
    obtain ⟨h1, h2, h3, h4, h5, h6, h7, h8⟩ := key f p hp
    refine ⟨h1, h2, h3, h4, h5, h6, h7, h8, ?_⟩
    simp only [paddedRectangles, List.map_cons, List.map_nil, padded_value _ h5 h6,
      padded_value _ h7 h8]
  · intro features patchesIndices r hr
    simp only [paddedRectangles, List.mem_map] at hr
    obtain ⟨p, hp, rfl⟩ := hr
    simp only [patchesOf, List.mem_filterMap] at hp
    obtain ⟨i, _, hi⟩ := hp
    cases hfi : features[i]? with
    | none => rw [hfi] at hi; exact Option.noConfusion hi
    | some g =>
      rw [hfi] at hi
      obtain ⟨_, _, _, _, h5, h6, h7, h8⟩ := key g p hi
      simp only [padded_value _ h5 h6, padded_value _ h7 h8]
      omega

/-! ## Patch geometry: the bounding box of the ellipse -/

theorem cos_orientation (f : Feature ℝ) (h : f.A00 ≠ 0 ∨ f.A10 ≠ 0) :
    Real.cos (orientation f) = f.A00 / Real.sqrt (f.A00 * f.A00 + f.A10 * f.A10) := by
  have hne : (⟨f.A00, f.A10⟩ : ℂ) ≠ 0 := by
    intro hc
    have h1 := congrArg Complex.re hc
    have h2 := congrArg Complex.im hc
    simp only [Complex.zero_re, Complex.zero_im] at h1 h2
    rcases h with h | h
    · exact h h1
    · exact h h2
  unfold orientation atan2
  rw [Complex.cos_arg hne, Complex.abs_apply, Complex.normSq_mk]

theorem sin_orientation (f : Feature ℝ) :
    Real.sin (orientation f) = f.A10 / Real.sqrt (f.A00 * f.A00 + f.A10 * f.A10) := by
  unfold orientation atan2
  rw [Complex.sin_arg, Complex.abs_apply, Complex.normSq_mk]

theorem col0_pos (f : Feature ℝ) (h : f.A00 ≠ 0 ∨ f.A10 ≠ 0) :
    0 < f.A00 * f.A00 + f.A10 * f.A10 := by
  rcases h with h | h
  · have := mul_self_pos.mpr h
    have := mul_self_nonneg f.A10
    linarith
  · have := mul_self_pos.mpr h
    have := mul_self_nonneg f.A00
    linarith

theorem ellipseU_eq (f : Feature ℝ) (h : f.A00 ≠ 0 ∨ f.A10 ≠ 0) :
    ellipseU f = (1.5 * f.A00, 1.5 * f.A10) := by
  have hpos := Real.sqrt_pos.mpr (col0_pos f h)
  unfold ellipseU scaleX bboxScale
  rw [cos_orientation f h, sin_orientation f]
  ext
  · simp only []; field_simp; ring
  · simp only []; field_simp; ring

theorem ellipseV_eq (f : Feature ℝ) (h : f.A00 ≠ 0 ∨ f.A10 ≠ 0) :
    ellipseV f =
      (-(1.5 * Real.sqrt (f.A01 * f.A01 + f.A11 * f.A11)
          / Real.sqrt (f.A00 * f.A00 + f.A10 * f.A10)) * f.A10,
       (1.5 * Real.sqrt (f.A01 * f.A01 + f.A11 * f.A11)
          / Real.sqrt (f.A00 * f.A00 + f.A10 * f.A10)) * f.A00) := by
  have hne := (Real.sqrt_pos.mpr (col0_pos f h)).ne'
  unfold ellipseV scaleY bboxScale
  rw [cos_orientation f h, sin_orientation f]
  ext
  · simp only []; ring
  · simp only []; ring

theorem bbox_sq (f : Feature ℝ) (h : f.A00 ≠ 0 ∨ f.A10 ≠ 0) :
    bboxWidth f ^ 2 = 2.25 * (f.A00 * f.A00
      + (f.A01 * f.A01 + f.A11 * f.A11) * (f.A10 * f.A10) / (f.A00 * f.A00 + f.A10 * f.A10)) ∧
    bboxHeight f ^ 2 = 2.25 * (f.A10 * f.A10
      + (f.A01 * f.A01 + f.A11 * f.A11) * (f.A00 * f.A00) / (f.A00 * f.A00 + f.A10 * f.A10)) := by
  have h0 := col0_pos f h
  have hne := (Real.sqrt_pos.mpr h0).ne'
  have h1 : 0 ≤ f.A01 * f.A01 + f.A11 * f.A11 :=
    add_nonneg (mul_self_nonneg _) (mul_self_nonneg _)
  have hs0 := Real.mul_self_sqrt h0.le
  have hs1 := Real.mul_self_sqrt h1
  have hdiv : ∀ t : ℝ, (f.A01 * f.A01 + f.A11 * f.A11) * t / (f.A00 * f.A00 + f.A10 * f.A10)
      = (Real.sqrt (f.A01 * f.A01 + f.A11 * f.A11) / Real.sqrt (f.A00 * f.A00 + f.A10 * f.A10)) ^ 2 * t := by
    intro t
    rw [div_pow, sq, sq, hs0, hs1]
    ring
  unfold bboxWidth bboxHeight
  rw [ellipseU_eq f h, ellipseV_eq f h]
  simp only []
  constructor
  · rw [Real.sq_sqrt (add_nonneg (mul_self_nonneg _) (mul_self_nonneg _)), hdiv]
    ring
  · rw [Real.sq_sqrt (add_nonneg (mul_self_nonneg _) (mul_self_nonneg _)), hdiv]
    ring

theorem bbox_nonneg (f : Feature ℝ) : 0 ≤ bboxWidth f ∧ 0 ≤ bboxHeight f :=
  ⟨Real.sqrt_nonneg _, Real.sqrt_nonneg _⟩

theorem bbox_claim_iff (f : Feature ℝ) (h : f.A00 ≠ 0 ∨ f.A10 ≠ 0) :
    (bboxWidth f = 1.5 * Real.sqrt (f.A00 * f.A00 + f.A01 * f.A01) ↔
      (f.A00 * f.A01) ^ 2 = (f.A10 * f.A11) ^ 2) ∧
    (bboxHeight f = 1.5 * Real.sqrt (f.A10 * f.A10 + f.A11 * f.A11) ↔
      (f.A00 * f.A01) ^ 2 = (f.A10 * f.A11) ^ 2) := by
  have h0 := col0_pos f h
  obtain ⟨hw, hh⟩ := bbox_sq f h
  have hr1 : 0 ≤ f.A00 * f.A00 + f.A01 * f.A01 := add_nonneg (mul_self_nonneg _) (mul_self_nonneg _)
  have hr2 : 0 ≤ f.A10 * f.A10 + f.A11 * f.A11 := add_nonneg (mul_self_nonneg _) (mul_self_nonneg _)
  constructor
  · rw [← sq_eq_sq₀ (bbox_nonneg f).1 (mul_nonneg (by norm_num) (Real.sqrt_nonneg _)), hw, mul_pow,
      Real.sq_sqrt hr1]
    constructor
    · intro he
      field_simp at he
      nlinarith [he]
    · intro he
      field_simp
      nlinarith [he]
  · rw [← sq_eq_sq₀ (bbox_nonneg f).2 (mul_nonneg (by norm_num) (Real.sqrt_nonneg _)), hh, mul_pow,
      Real.sq_sqrt hr2]
    constructor
    · intro he
      field_simp at he
      nlinarith [he]
    · intro he
      field_simp
      nlinarith [he]


/-- C6 (counterexample): for the frame with rows `(1, 1)` and `(0, 1)` the code's
half-width is `1.5`, not `1.5 * sqrt (A11^2 + A12^2) = 1.5 * sqrt 2`, and its
half-height is not `1.5 * sqrt (A21^2 + A22^2) = 1.5`. -/
theorem shear_frame_half_extents :
    bboxWidth (frameFeature 100 100 1 1 0 1) = 1.5 ∧
    bboxWidth (frameFeature 100 100 1 1 0 1) ≠ 1.5 * Real.sqrt (1 * 1 + 1 * 1) ∧
    bboxHeight (frameFeature 100 100 1 1 0 1) ≠ 1.5 * Real.sqrt (0 * 0 + 1 * 1) := by
  have hne : (frameFeature 100 100 1 1 0 1).A00 ≠ 0 ∨ (frameFeature 100 100 1 1 0 1).A10 ≠ 0 :=
    Or.inl (by simp [frameFeature])
  obtain ⟨hw, hh⟩ := bbox_claim_iff _ hne
  obtain ⟨hsq, _⟩ := bbox_sq _ hne
  simp only [frameFeature] at hw hh hsq
  refine ⟨?_, ?_, ?_⟩
  · rw [← sq_eq_sq₀ (bbox_nonneg _).1 (by norm_num)]
    simp only [frameFeature]
    rw [hsq]
    norm_num
  · intro hc
    have := hw.mp hc
    norm_num at this
  · intro hc
    have := hh.mp hc
    norm_num at this

/-- C6 (amended): for a frame whose first column is not zero, the ellipse used
by `featureToPatch` has the semi-axis `u = 1.5 * (A11, A21)` and the perpendicular
semi-axis `v = 1.5 * (|col 2| / |col 1|) * (-A21, A11)`; the half-width is
`sqrt (u.x^2 + v.x^2)`, the half-height `sqrt (u.y^2 + v.y^2)`; they equal
`1.5 * sqrt (A11^2 + A12^2)` and `1.5 * sqrt (A21^2 + A22^2)` exactly when
`(A11 * A12)^2 = (A21 * A22)^2`, in particular when the columns are orthogonal. -/
theorem bbox_half_extents (f : Feature ℝ) (h : f.A00 ≠ 0 ∨ f.A10 ≠ 0) :
    ellipseU f = (1.5 * f.A00, 1.5 * f.A10) ∧
    ellipseV f =
      (-(1.5 * Real.sqrt (f.A01 * f.A01 + f.A11 * f.A11)
          / Real.sqrt (f.A00 * f.A00 + f.A10 * f.A10)) * f.A10,
       (1.5 * Real.sqrt (f.A01 * f.A01 + f.A11 * f.A11)
          / Real.sqrt (f.A00 * f.A00 + f.A10 * f.A10)) * f.A00) ∧
    bboxWidth f = Real.sqrt ((ellipseU f).1 ^ 2 + (ellipseV f).1 ^ 2) ∧
    bboxHeight f = Real.sqrt ((ellipseU f).2 ^ 2 + (ellipseV f).2 ^ 2) ∧
    ((bboxWidth f = 1.5 * Real.sqrt (f.A00 ^ 2 + f.A01 ^ 2) ∧
      bboxHeight f = 1.5 * Real.sqrt (f.A10 ^ 2 + f.A11 ^ 2)) ↔
      (f.A00 * f.A01) ^ 2 = (f.A10 * f.A11) ^ 2) ∧
    (f.A00 * f.A01 + f.A10 * f.A11 = 0 →
      bboxWidth f = 1.5 * Real.sqrt (f.A00 ^ 2 + f.A01 ^ 2) ∧
      bboxHeight f = 1.5 * Real.sqrt (f.A10 ^ 2 + f.A11 ^ 2)) := by
  obtain ⟨hw, hh⟩ := bbox_claim_iff f h
  simp only [← sq] at hw hh
  refine ⟨ellipseU_eq f h, ellipseV_eq f h, ?_, ?_, ?_, ?_⟩
  · simp only [bboxWidth, sq]
  · simp only [bboxHeight, sq]
  · exact ⟨fun hc => hw.mp hc.1, fun hc => ⟨hw.mpr hc, hh.mpr hc⟩⟩
  · intro horth
    have hc : (f.A00 * f.A01) ^ 2 = (f.A10 * f.A11) ^ 2 := by
      have : f.A00 * f.A01 = -(f.A10 * f.A11) := by linarith
      rw [this, neg_sq]
    exact ⟨hw.mpr hc, hh.mpr hc⟩

/-- A concrete instance of C6 (amended): the identity frame scaled by 10. -/
theorem bbox_half_extents_witness :
    bboxWidth (frameFeature 100 100 10 0 0 10) = 1.5 * Real.sqrt (10 ^ 2 + 0 ^ 2) ∧
    bboxHeight (frameFeature 100 100 10 0 0 10) = 1.5 * Real.sqrt (0 ^ 2 + 10 ^ 2) :=
  (bbox_half_extents (frameFeature 100 100 10 0 0 10)
    (Or.inl (by simp [frameFeature]))).2.2.2.2.2 (by simp [frameFeature])

/-! ## Patch geometry: the identity frame scaled by 10 -/

theorem identityFrame_bbox (f : Feature ℝ)
    (hA : f.A00 = 10 ∧ f.A01 = 0 ∧ f.A10 = 0 ∧ f.A11 = 10) :
    bboxWidth f = 15 ∧ bboxHeight f = 15 := by
  obtain ⟨h00, h01, h10, h11⟩ := hA
  obtain ⟨hw, hh⟩ := bbox_sq f (Or.inl (by rw [h00]; norm_num))
  rw [h00, h01, h10, h11] at hw hh
  constructor
  · rw [← sq_eq_sq₀ (bbox_nonneg f).1 (by norm_num), hw]; norm_num
  · rw [← sq_eq_sq₀ (bbox_nonneg f).2 (by norm_num), hh]; norm_num

/-- Floor of `t - 15` and ceiling of `t + 15` for `15 <= t <= 2^31 - 16`. -/
theorem span_of_half_extent_15 (t : ℝ) (h1 : 15 ≤ t) (h2 : t + 15 ≤ 2 ^ 31 - 1) :
    0 ≤ ⌊t - 15⌋ ∧ ⌈t + 15⌉ ≤ 2 ^ 31 - 1 ∧
    30 ≤ ⌈t + 15⌉ - ⌊t - 15⌋ ∧ ⌈t + 15⌉ - ⌊t - 15⌋ ≤ 31 ∧
    (⌈t + 15⌉ - ⌊t - 15⌋ = 30 ↔ ∃ n : ℤ, t = n) := by
  have hf1 := Int.floor_le (t - 15)
  have hf2 := Int.lt_floor_add_one (t - 15)
  have hc1 := Int.le_ceil (t + 15)
  have hc2 := Int.ceil_lt_add_one (t + 15)
  have hnn : 0 ≤ ⌊t - 15⌋ := Int.floor_nonneg.mpr (by linarith)
  have hub : ⌈t + 15⌉ ≤ 2 ^ 31 - 1 := Int.ceil_le.mpr (by push_cast; linarith)
  have hlo : (30 : ℤ) ≤ ⌈t + 15⌉ - ⌊t - 15⌋ := by
    have : ((29 : ℤ) : ℝ) < ((⌈t + 15⌉ - ⌊t - 15⌋ : ℤ) : ℝ) := by push_cast; linarith
    have := Int.cast_lt.mp this
    omega
  have hhi : ⌈t + 15⌉ - ⌊t - 15⌋ ≤ (31 : ℤ) := by
    have : ((⌈t + 15⌉ - ⌊t - 15⌋ : ℤ) : ℝ) < ((32 : ℤ) : ℝ) := by push_cast; linarith
    have := Int.cast_lt.mp this
    omega
  refine ⟨hnn, hub, hlo, hhi, ?_, ?_⟩
  · intro h30
    refine ⟨⌊t - 15⌋ + 15, ?_⟩
    have : ((⌈t + 15⌉ - ⌊t - 15⌋ : ℤ) : ℝ) = ((30 : ℤ) : ℝ) := by rw [h30]
    push_cast at this ⊢
    linarith
  · rintro ⟨n, rfl⟩
    have e1 : ⌊(n : ℝ) - 15⌋ = n - 15 := by
      rw [Int.floor_eq_iff]; push_cast; constructor <;> linarith
    have e2 : ⌈(n : ℝ) + 15⌉ = n + 15 := by
      rw [Int.ceil_eq_iff]; push_cast; constructor <;> linarith
    rw [e1, e2]; ring

theorem identityFrame_patch (f : Feature ℝ)
    (hA : f.A00 = 10 ∧ f.A01 = 0 ∧ f.A10 = 0 ∧ f.A11 = 10)
    (hx : 15 ≤ f.keypoint0) (hy : 15 ≤ f.keypoint1)
    (hx2 : f.keypoint0 + 15 ≤ 2 ^ 31 - 1) (hy2 : f.keypoint1 + 15 ≤ 2 ^ 31 - 1) :
    featureToPatch f = some
      { imageName := f.imageName,
        rect := { x := ⌊f.keypoint0 - 15⌋, y := ⌊f.keypoint1 - 15⌋,
                  width := ⌈f.keypoint0 + 15⌉ - ⌊f.keypoint0 - 15⌋,
                  height := ⌈f.keypoint1 + 15⌉ - ⌊f.keypoint1 - 15⌋ } } := by
  obtain ⟨hw, hh⟩ := identityFrame_bbox f hA
  obtain ⟨a1, a2, a3, a4, _⟩ := span_of_half_extent_15 f.keypoint0 hx hx2
  obtain ⟨b1, b2, b3, b4, _⟩ := span_of_half_extent_15 f.keypoint1 hy hy2
  have hrect : featureRect f =
      { x := ⌊f.keypoint0 - 15⌋, y := ⌊f.keypoint1 - 15⌋,
        width := ⌈f.keypoint0 + 15⌉ - ⌊f.keypoint0 - 15⌋,
        height := ⌈f.keypoint1 + 15⌉ - ⌊f.keypoint1 - 15⌋ } := by
    simp only [featureRect, hw, hh]
    rw [toInt32_of_range ⌊f.keypoint0 - 15⌋ (by omega) (by omega),
      toInt32_of_range ⌊f.keypoint1 - 15⌋ (by omega) (by omega),
      toInt32_of_range ⌈f.keypoint0 + 15⌉ (by omega) (by omega),
      toInt32_of_range ⌈f.keypoint1 + 15⌉ (by omega) (by omega),
      toInt32_of_range (⌈f.keypoint0 + 15⌉ - ⌊f.keypoint0 - 15⌋) (by omega) (by omega),
      toInt32_of_range (⌈f.keypoint1 + 15⌉ - ⌊f.keypoint1 - 15⌋) (by omega) (by omega)]
  have hrange := featureRect_range f
  have hiff := patchOfRect_eq_none_iff f.imageName (featureRect f) hrange.1 hrange.2
  unfold featureToPatch
  cases hp : patchOfRect f.imageName (featureRect f) with
  | none =>
    have := hiff.mp hp
    rw [hrect] at this
    simp only [] at this
    omega
  | some p =>
    rw [patchOfRect_eq_some _ _ p hp, hrect]

/-- C7 (counterexample): the identity frame scaled by 10 at the keypoint
`(20.5, 20)` is accepted with the rectangle `(5, 5, 31, 30)`: the crop is not
square and its width is 31, not 30. -/
theorem identity_frame_crop_not_square :
    ∃ p, featureToPatch (frameFeature 20.5 20 10 0 0 10) = some p ∧
      p.rect = { x := 5, y := 5, width := 31, height := 30 } ∧
      p.rect.width ≠ p.rect.height ∧ p.rect.width ≠ 30 := by
  have h := identityFrame_patch (frameFeature 20.5 20 10 0 0 10)
    (by simp [frameFeature]) (by simp only [frameFeature]; norm_num)
    (by simp only [frameFeature]; norm_num) (by simp only [frameFeature]; norm_num)
    (by simp only [frameFeature]; norm_num)
  simp only [frameFeature] at h
  have e1 : ⌊(20.5 : ℝ) - 15⌋ = 5 := by
    rw [Int.floor_eq_iff]; constructor <;> norm_num
  have e2 : ⌈(20.5 : ℝ) + 15⌉ = 36 := by
    rw [Int.ceil_eq_iff]; constructor <;> norm_num
  have e3 : ⌊(20 : ℝ) - 15⌋ = 5 := by
    rw [Int.floor_eq_iff]; constructor <;> norm_num
  have e4 : ⌈(20 : ℝ) + 15⌉ = 35 := by
    rw [Int.ceil_eq_iff]; constructor <;> norm_num
  rw [e1, e2, e3, e4] at h
  refine ⟨_, h, ?_, ?_, ?_⟩
  · exact rfl
  · simp only []; omega
  · simp only []; omega

/-- C7 (amended): for a keypoint `(x, y)` with `15 <= x`, `15 <= y` (and
`x + 15`, `y + 15` within the `int` range) and the identity frame scaled by 10,
both half-extents are exactly 15 and `featureToPatch` accepts the feature with
origin `(floor (x - 15), floor (y - 15))`, width `ceil (x + 15) - floor (x - 15)`
and height `ceil (y + 15) - floor (y - 15)`; the width is 30 when `x` is an
integer and 31 otherwise, likewise the height for `y`; the padded size is the
crop size plus 4 on each side length. -/
theorem identity_frame_crop (f : Feature ℝ)
    (hA : f.A00 = 10 ∧ f.A01 = 0 ∧ f.A10 = 0 ∧ f.A11 = 10)
    (hx : 15 ≤ f.keypoint0) (hy : 15 ≤ f.keypoint1)
    (hx2 : f.keypoint0 + 15 ≤ 2 ^ 31 - 1) (hy2 : f.keypoint1 + 15 ≤ 2 ^ 31 - 1) :
    bboxWidth f = 15 ∧ bboxHeight f = 15 ∧
    ∃ p, featureToPatch f = some p ∧ p.imageName = f.imageName ∧
      p.rect.x = ⌊f.keypoint0 - 15⌋ ∧ p.rect.y = ⌊f.keypoint1 - 15⌋ ∧
      p.rect.width = ⌈f.keypoint0 + 15⌉ - ⌊f.keypoint0 - 15⌋ ∧
      p.rect.height = ⌈f.keypoint1 + 15⌉ - ⌊f.keypoint1 - 15⌋ ∧
      (p.rect.width = 30 ∨ p.rect.width = 31) ∧ (p.rect.height = 30 ∨ p.rect.height = 31) ∧
      (p.rect.width = 30 ↔ ∃ n : ℤ, f.keypoint0 = n) ∧
      (p.rect.height = 30 ↔ ∃ n : ℤ, f.keypoint1 = n) ∧
      paddedRectangles [p] = [{ x := 0, y := 0, w := p.rect.width + 4, h := p.rect.height + 4 }] := by
  obtain ⟨hw, hh⟩ := identityFrame_bbox f hA
  obtain ⟨_, _, a3, a4, a5⟩ := span_of_half_extent_15 f.keypoint0 hx hx2
  obtain ⟨_, _, b3, b4, b5⟩ := span_of_half_extent_15 f.keypoint1 hy hy2
  refine ⟨hw, hh, _, identityFrame_patch f hA hx hy hx2 hy2, rfl, rfl, rfl, rfl, rfl, ?_, ?_,
    a5, b5, ?_⟩
  · simp only []; omega
  · simp only []; omega
  · simp only [paddedRectangles, List.map_cons, List.map_nil]
    rw [padded_value _ (by omega) (by omega), padded_value _ (by omega) (by omega)]

/-- A concrete instance of C7 (amended): the keypoint `(100, 100)`. -/
theorem identity_frame_crop_witness :
    bboxWidth (frameFeature 100 100 10 0 0 10) = 15 ∧
    bboxHeight (frameFeature 100 100 10 0 0 10) = 15 ∧
    ∃ p, featureToPatch (frameFeature 100 100 10 0 0 10) = some p ∧
      (p.rect.width = 30 ↔ ∃ n : ℤ, (100 : ℝ) = n) := by
  obtain ⟨hw, hh, p, hp, _, _, _, _, _, _, _, h30, _⟩ :=
    identity_frame_crop (frameFeature 100 100 10 0 0 10)
      (by simp [frameFeature]) (by simp only [frameFeature]; norm_num)
      (by simp only [frameFeature]; norm_num) (by simp only [frameFeature]; norm_num)
      (by simp only [frameFeature]; norm_num)
  exact ⟨hw, hh, p, hp, h30⟩


/-! ## Reading the feature table -/

theorem findFrom_spec (p : Char → Bool) :
    ∀ (l : List Char) (i : Nat), findFrom p l i ≠ npos →
      i ≤ findFrom p l i ∧ findFrom p l i < i + l.length ∧
      ∃ c, l[findFrom p l i - i]? = some c ∧ p c = true := by
  intro l
  induction l with
  | nil => intro i h; exact absurd rfl h
  | cons c cs ih =>
    intro i h
    rw [findFrom] at h ⊢
    by_cases hp : p c = true
    · rw [if_pos hp]
      refine ⟨le_refl _, by simp, c, by simp, hp⟩
    · rw [if_neg hp] at h ⊢
      obtain ⟨h1, h2, d, hd, hpd⟩ := ih (i + 1) h
      refine ⟨by omega, by simp only [List.length_cons]; omega, d, ?_, hpd⟩
      have : findFrom p cs (i + 1) - i = (findFrom p cs (i + 1) - (i + 1)) + 1 := by omega
      rw [this, List.getElem?_cons_succ]
      exact hd

theorem findFrom_ge (p : Char → Bool) (l : List Char) (i : Nat) :
    findFrom p l i = npos ∨ i ≤ findFrom p l i := by
  by_cases h : findFrom p l i = npos
  · exact Or.inl h
  · exact Or.inr (findFrom_spec p l i h).1

/-- The loop of `split` ends by its own exit test: with `str.length - end + 1`
passes allowed, allowing more passes does not change the result. -/
theorem splitLoop_fuel (str : Str) (delim : Char) (hlen : str.length ≤ npos) :
    ∀ (fuel e : Nat) (strings : List Str) (extra : Nat), str.length - e + 1 ≤ fuel →
      splitLoop str delim (fuel + extra) e strings = splitLoop str delim fuel e strings := by
  intro fuel
  induction fuel with
  | zero => intro e strings extra h; omega
  | succ fuel ih =>
    intro e strings extra h
    have hadd : fuel + 1 + extra = (fuel + extra) + 1 := by omega
    rw [hadd, splitLoop, splitLoop]
    by_cases hs : find_first_not_of str [delim] e = npos
    · simp only [hs, if_true]
    · simp only [hs, if_false]
      apply ih
      obtain ⟨h1, h2, c, hc, hpc⟩ := findFrom_spec _ (str.drop e) e hs
      have hstart : find_first_not_of str [delim] e = findFrom (fun c => !([delim].contains c))
          (str.drop e) e := rfl
      rw [← hstart] at h1 h2 hc
      rw [List.length_drop] at h2
      have hlt : find_first_not_of str [delim] e < str.length := by omega
      rw [List.getElem?_drop] at hc
      have hidx : e + (find_first_not_of str [delim] e - e) = find_first_not_of str [delim] e := by
        omega
      rw [hidx] at hc
      have hdrop : str.drop (find_first_not_of str [delim] e) =
          c :: str.drop (find_first_not_of str [delim] e + 1) := by
        rw [List.drop_eq_getElem_cons hlt]
        congr 1
        have := List.getElem?_eq_getElem hlt
        rw [this] at hc
        exact Option.some.inj hc
      have hcd : (c == delim) = false := by
        simpa using hpc
      have hfind : find str delim (find_first_not_of str [delim] e) =
          findFrom (fun c => c == delim) (str.drop (find_first_not_of str [delim] e + 1))
            (find_first_not_of str [delim] e + 1) := by
        unfold find
        rw [hdrop, findFrom, hcd]
        simp
      rcases findFrom_ge (fun c => c == delim) (str.drop (find_first_not_of str [delim] e + 1))
          (find_first_not_of str [delim] e + 1) with hn | hge
      · rw [hfind, hn]; omega
      · rw [hfind]; omega

/-- The passes allowed in `split` are enough: more passes give the same fields. -/
theorem split_fuel (str : Str) (delim : Char) (hlen : str.length ≤ npos) (extra : Nat) :
    splitLoop str delim (str.length + 1 + extra) 0 [] = split str delim :=
  splitLoop_fuel str delim hlen (str.length + 1) 0 [] extra (by omega)

theorem parseFeature_eq_none_iff {F : Type} (stof : Str → Option F) (str : List Str) :
    parseFeature stof str = none ↔ numericColumnFails stof str := by
  unfold parseFeature numericColumnFails
  cases stoi (trim (str.getD 0 [])) <;> cases stoi (trim (str.getD 3 [])) <;>
  cases stof (trim (str.getD 4 [])) <;> cases stof (trim (str.getD 5 [])) <;>
  cases stof (trim (str.getD 6 [])) <;> cases stof (trim (str.getD 7 [])) <;>
  cases stof (trim (str.getD 8 [])) <;> cases stof (trim (str.getD 9 [])) <;>
  cases stoi (trim (str.getD 10 [])) <;> cases stoi (trim (str.getD 11 [])) <;> simp

theorem readLoop_stop {F : Type} (stof : Str → Option F) (bad : Str) (post : List Str)
    (h1 : bad ≠ []) (h2 : bad.head? ≠ some '#') (h3 : (split bad ',').length ≠ 14) :
    ∀ (pre : List Str) (features : List (Feature F)),
      readLoop stof (pre ++ bad :: post) features = readLoop stof pre features := by
  intro pre
  induction pre with
  | nil =>
    intro features
    have hlen : ¬ bad.length ≤ 0 := by
      cases bad with
      | nil => exact absurd rfl h1
      | cons c cs => simp
    simp only [List.nil_append, readLoop]
    rw [if_neg (by tauto), if_pos h3]
  | cons line rest ih =>
    intro features
    simp only [List.cons_append, readLoop]
    split
    · exact ih features
    · split
      · rfl
      · split
        · exact ih features
        · exact ih _

theorem readLoop_skip {F : Type} (stof : Str → Option F) (line : Str) (post : List Str)
    (h : line = [] ∨ line.head? = some '#' ∨
      ((split line ',').length = 14 ∧ parseFeature stof (split line ',') = none)) :
    ∀ (pre : List Str) (features : List (Feature F)),
      readLoop stof (pre ++ line :: post) features = readLoop stof (pre ++ post) features := by
  intro pre
  induction pre with
  | nil =>
    intro features
    simp only [List.nil_append]
    rw [readLoop]
    by_cases hc : line.length ≤ 0 ∨ line.head? = some '#'
    · rw [if_pos hc]
    · rw [if_neg hc]
      rcases h with h | h | ⟨h14, hp⟩
      · exact absurd (Or.inl (by rw [h]; simp)) hc
      · exact absurd (Or.inr h) hc
      · simp only [h14, ne_eq, not_true_eq_false, if_false, hp]
  | cons l rest ih =>
    intro features
    simp only [List.cons_append, readLoop]
    split
    · exact ih features
    · split
      · rfl
      · split
        · exact ih features
        · exact ih _

theorem readLoop_filterMap {F : Type} (stof : Str → Option F) :
    ∀ (lines : List Str) (features : List (Feature F)),
      (∀ l ∈ lines, l = [] ∨ l.head? = some '#' ∨ (split l ',').length = 14) →
      readLoop stof lines features = features ++ lines.filterMap (fun l =>
        if l = [] ∨ l.head? = some '#' then none else parseFeature stof (split l ',')) := by
  intro lines
  induction lines with
  | nil => intro features _; simp [readLoop]
  | cons line rest ih =>
    intro features hall
    have hrest : ∀ l ∈ rest, l = [] ∨ l.head? = some '#' ∨ (split l ',').length = 14 :=
      fun l hl => hall l (List.mem_cons_of_mem _ hl)
    have hline := hall line (List.mem_cons_self _ _)
    have hlen : line.length ≤ 0 ↔ line = [] := by
      cases line <;> simp
    rw [readLoop, List.filterMap_cons]
    by_cases hc : line = [] ∨ line.head? = some '#'
    · rw [if_pos (by rw [hlen]; exact hc), if_pos hc]
      exact ih features hrest
    · have h14 : (split line ',').length = 14 := by tauto
      rw [if_neg (by rw [hlen]; exact hc), if_neg hc]
      simp only [h14, ne_eq, not_true_eq_false, if_false]
      cases hp : parseFeature stof (split line ',') with
      | none => exact ih features hrest
      | some feature =>
        simp only []
        rw [ih _ hrest, List.append_assoc, List.singleton_append]

/-- C8: once `readFeatures` meets a non-empty line that does not start with `#`
and splits into fewer than 14 fields, the read stops: the result is that of the
lines before it, whatever follows. A row with an empty column is such a line
(the row `emptyColumnLine` has 13 fields). -/
theorem short_line_stops_the_read {F : Type} (stof : Str → Option F)
    (pre : List Str) (bad : Str) (post : List Str)
    (h1 : bad ≠ []) (h2 : bad.head? ≠ some '#') (h3 : (split bad ',').length < 14) :
    readFeatures stof (pre ++ bad :: post) = readFeatures stof pre ∧
    (split emptyColumnLine ',').length = 13 :=
  ⟨readLoop_stop stof bad post h1 h2 (by omega) pre [], by decide⟩

/-- A concrete instance of C8: a three-field line between two copies of the
example row. -/
theorem short_line_stops_the_read_witness :
    readFeatures stofDecimal ([exampleLine] ++ shortLine :: [exampleLine])
      = readFeatures stofDecimal [exampleLine] ∧
    (readFeatures stofDecimal [exampleLine]).length = 1 :=
  ⟨(short_line_stops_the_read stofDecimal [exampleLine] shortLine [exampleLine]
      (by decide) (by decide) (by decide)).1, by decide⟩

/-- C9 (counterexample): the example row is well formed (read alone it gives one
record), but after a line of 15 fields it is not read: the table made of the
15-field line and the example row gives no record at all. -/
theorem extra_columns_stop_the_read :
    (split extraColumnLine ',').length = 15 ∧
    (split exampleLine ',').length = 14 ∧
    (readFeatures stofDecimal [exampleLine]).length = 1 ∧
    readFeatures stofDecimal [extraColumnLine, exampleLine] = [] := by
  refine ⟨by decide, by decide, by decide, by decide⟩

/-- C9 (amended): a non-empty line that does not start with `#` and has more
than 14 fields yields no record and stops the read at that line: the result is
that of the lines before it, and no line after it is parsed. -/
theorem long_line_stops_the_read {F : Type} (stof : Str → Option F)
    (pre : List Str) (bad : Str) (post : List Str)
    (h1 : bad ≠ []) (h2 : bad.head? ≠ some '#') (h3 : 14 < (split bad ',').length) :
    readFeatures stof (pre ++ bad :: post) = readFeatures stof pre :=
  readLoop_stop stof bad post h1 h2 (by omega) pre []

/-- A concrete instance of C9 (amended): a 15-field line between two copies of
the example row. -/
theorem long_line_stops_the_read_witness :
    readFeatures stofDecimal ([exampleLine] ++ extraColumnLine :: [exampleLine])
      = readFeatures stofDecimal [exampleLine] :=
  long_line_stops_the_read stofDecimal [exampleLine] extraColumnLine [exampleLine]
    (by decide) (by decide) (by decide)

/-- C10: an empty line, a line starting with `#`, and a 14-field line one of
whose numeric columns does not parse (the header row is one) yield no record and
do not stop the read: deleting such a line from the table does not change the
result. A numeric parse failure is the only way a 14-field line is skipped. For
a table made of such lines and of well-formed 14-field lines, the result is the
list of the records of the well-formed lines, in line order. -/
theorem skipped_lines_do_not_stop {F : Type} (stof : Str → Option F) :
    (∀ (pre : List Str) (line : Str) (post : List Str),
      (line = [] ∨ line.head? = some '#' ∨
        ((split line ',').length = 14 ∧ numericColumnFails stof (split line ','))) →
      readFeatures stof (pre ++ line :: post) = readFeatures stof (pre ++ post)) ∧
    ((split headerLine ',').length = 14 ∧ numericColumnFails stof (split headerLine ',')) ∧
    (∀ str : List Str, parseFeature stof str = none ↔ numericColumnFails stof str) ∧
    (∀ lines : List Str,
      (∀ l ∈ lines, l = [] ∨ l.head? = some '#' ∨ (split l ',').length = 14) →
      readFeatures stof lines = lines.filterMap (fun l =>
        if l = [] ∨ l.head? = some '#' then none else parseFeature stof (split l ','))) := by
  refine ⟨?_, ⟨by decide, Or.inl (by decide)⟩, parseFeature_eq_none_iff stof, ?_⟩
  · intro pre line post h
    refine readLoop_skip stof line post ?_ pre []
    rcases h with h | h | ⟨h14, hf⟩
    · exact Or.inl h
    · exact Or.inr (Or.inl h)
    · exact Or.inr (Or.inr ⟨h14, (parseFeature_eq_none_iff stof _).mpr hf⟩)
  · intro lines h
    have := readLoop_filterMap stof lines [] h
    simpa [readFeatures] using this

/-- A concrete instance of C10: header, comment, empty line and a row with a
non-numeric column around two copies of the example row. -/
theorem skipped_lines_do_not_stop_witness :
    readFeatures stofDecimal
        [headerLine, exampleLine, "# comment".toList, [], badNumberLine, exampleLine]
      = readFeatures stofDecimal [exampleLine, exampleLine] ∧
    (readFeatures stofDecimal [exampleLine, exampleLine]).map (fun f => f.num) = [4, 4] := by
  have h := skipped_lines_do_not_stop stofDecimal
  have e1 := h.1 [] headerLine [exampleLine, "# comment".toList, [], badNumberLine, exampleLine]
    (Or.inr (Or.inr h.2.1))
  have e2 := h.1 [exampleLine] "# comment".toList [[], badNumberLine, exampleLine]
    (Or.inr (Or.inl (by decide)))
  have e3 := h.1 [exampleLine] [] [badNumberLine, exampleLine] (Or.inl rfl)
  have e4 := h.1 [exampleLine] badNumberLine [exampleLine]
    (Or.inr (Or.inr ⟨by decide, Or.inr (Or.inl (by decide))⟩))
  simp only [List.nil_append, List.cons_append] at e1 e2 e3 e4
  exact ⟨by rw [e1, e2, e3, e4], by decide⟩

/-! ## Reading the feature table: the fields of a record -/

theorem parseFeature_fields {F : Type} (stof : Str → Option F) (str : List Str) (f : Feature F)
    (h : parseFeature stof str = some f) :
    stoi (trim (str.getD 0 [])) = some f.num ∧
    f.imageName = trim (str.getD 1 []) ∧
    stoi (trim (str.getD 3 [])) = some f.index ∧
    stof (trim (str.getD 4 [])) = some f.keypoint0 ∧
    stof (trim (str.getD 5 [])) = some f.keypoint1 ∧
    stof (trim (str.getD 6 [])) = some f.A00 ∧
    stof (trim (str.getD 7 [])) = some f.A01 ∧
    stof (trim (str.getD 8 [])) = some f.A10 ∧
    stof (trim (str.getD 9 [])) = some f.A11 ∧
    stoi (trim (str.getD 10 [])) = some f.matches_ ∧
    stoi (trim (str.getD 11 [])) = some f.inlierMatches ∧
    f.hasPoint3D = (trim (str.getD 12 []) == "true".toList) ∧
    f.descriptorString = trim (str.getD 13 []) := by
  unfold parseFeature at h
  cases h0 : stoi (trim (str.getD 0 [])) <;> rw [h0] at h <;> simp only [] at h
  · exact Option.noConfusion h
  cases h3 : stoi (trim (str.getD 3 [])) <;> rw [h3] at h <;> simp only [] at h
  · exact Option.noConfusion h
  cases h4 : stof (trim (str.getD 4 [])) <;> rw [h4] at h <;> simp only [] at h
  · exact Option.noConfusion h
  cases h5 : stof (trim (str.getD 5 [])) <;> rw [h5] at h <;> simp only [] at h
  · exact Option.noConfusion h
  cases h6 : stof (trim (str.getD 6 [])) <;> rw [h6] at h <;> simp only [] at h
  · exact Option.noConfusion h
  cases h7 : stof (trim (str.getD 7 [])) <;> rw [h7] at h <;> simp only [] at h
  · exact Option.noConfusion h
  cases h8 : stof (trim (str.getD 8 [])) <;> rw [h8] at h <;> simp only [] at h
  · exact Option.noConfusion h
  cases h9 : stof (trim (str.getD 9 [])) <;> rw [h9] at h <;> simp only [] at h
  · exact Option.noConfusion h
  cases h10 : stoi (trim (str.getD 10 [])) <;> rw [h10] at h <;> simp only [] at h
  · exact Option.noConfusion h
  cases h11 : stoi (trim (str.getD 11 [])) <;> rw [h11] at h <;> simp only [] at h
  · exact Option.noConfusion h
  have hf := Option.some.inj h
  subst hf
  exact ⟨rfl, rfl, rfl, rfl, rfl, rfl, rfl, rfl, rfl, rfl, rfl, rfl, rfl⟩

theorem parseFeature_congr {F : Type} (stof : Str → Option F) (str str' : List Str)
    (h : ∀ i : Nat, i ≠ 2 → str'[i]? = str[i]?) : parseFeature stof str' = parseFeature stof str := by
  have hg : ∀ i, i ≠ 2 → str'.getD i [] = str.getD i [] := by
    intro i hi
    simp only [List.getD_eq_getElem?_getD, h i hi]
  unfold parseFeature
  simp only [hg 0 (by decide), hg 1 (by decide), hg 3 (by decide), hg 4 (by decide),
    hg 5 (by decide), hg 6 (by decide), hg 7 (by decide), hg 8 (by decide), hg 9 (by decide),
    hg 10 (by decide), hg 11 (by decide), hg 12 (by decide), hg 13 (by decide)]

theorem readFeatures_single {F : Type} (stof : Str → Option F) (line : Str)
    (h1 : line ≠ []) (h2 : line.head? ≠ some '#') (h14 : (split line ',').length = 14) :
    readFeatures stof [line] = (parseFeature stof (split line ',')).toList := by
  have hlen : ¬ line.length ≤ 0 := by
    cases line with
    | nil => exact absurd rfl h1
    | cons c cs => simp
  unfold readFeatures
  rw [readLoop, if_neg (by tauto)]
  simp only [h14, ne_eq, not_true_eq_false, if_false]
  cases parseFeature stof (split line ',') <;> simp [readLoop]

theorem length_eq_of_getElem?_eq {α : Type} (l l' : List α) (n : Nat) (hn : 4 ≤ n)
    (hl : l.length = n) (h : ∀ i : Nat, i ≠ 2 → l'[i]? = l[i]?) : l'.length = n := by
  have h1 : l'[n - 1]? = l[n - 1]? := h (n - 1) (by omega)
  have h2 : l'[n]? = l[n]? := h n (by omega)
  have e2 : l[n]? = none := List.getElem?_eq_none (by omega)
  rw [e2] at h2
  have a2 : l'.length ≤ n := List.getElem?_eq_none_iff.mp h2
  have a1 : n - 1 < l'.length := by
    by_contra hc
    have e1 : l'[n - 1]? = none := List.getElem?_eq_none (by omega)
    rw [e1] at h1
    have := List.getElem?_eq_none_iff.mp h1.symm
    omega
  omega

theorem whitespace_contains (c : Char) : whitespace.contains c = isBlank c := by
  simp only [whitespace, isBlank, List.contains, List.elem]
  cases (c == ' ') <;> cases (c == '\t') <;> cases (c == '\n') <;> rfl

theorem findFrom_eq (q : Char → Bool) :
    ∀ (l : List Char) (i : Nat),
      findFrom (fun c => !q c) l i =
        if l.dropWhile q = [] then npos else i + (l.takeWhile q).length := by
  intro l
  induction l with
  | nil => intro i; rfl
  | cons c cs ih =>
    intro i
    rw [findFrom]
    cases hq : q c
    · simp [List.dropWhile_cons, List.takeWhile_cons, hq]
    · simp only [Bool.not_true, Bool.false_eq_true, if_false, List.dropWhile_cons, hq, if_true,
        List.takeWhile_cons, List.length_cons, ih]
      split
      · rfl
      · omega

theorem findLast_snoc (p : Char → Bool) :
    ∀ (init : List Char) (c : Char) (i best : Nat),
      findLast p (init ++ [c]) i best =
        if p c then i + init.length else findLast p init i best := by
  intro init
  induction init with
  | nil => intro c i best; simp [findLast]
  | cons a rest ih =>
    intro c i best
    rw [List.cons_append, findLast, ih, findLast]
    simp only [List.length_cons]
    split
    · omega
    · rfl

theorem findLast_eq (q : Char → Bool) (best : Nat) :
    ∀ l : List Char, l.reverse.dropWhile q ≠ [] →
      findLast (fun c => !q c) l 0 best + 1 = (l.reverse.dropWhile q).length := by
  intro l
  induction l using List.reverseRecOn with
  | nil => intro h; exact absurd rfl h
  | append_singleton init c ih =>
    intro h
    rw [findLast_snoc]
    rw [List.reverse_append, List.reverse_singleton, List.singleton_append,
      List.dropWhile_cons] at h ⊢
    cases hq : q c
    · simp [hq]
    · simp only [hq, if_true, Bool.not_true, Bool.false_eq_true, if_false] at h ⊢
      exact ih h

theorem dropWhile_append_of_ne_nil (q : Char → Bool) :
    ∀ (a b : List Char), a.dropWhile q ≠ [] → (a ++ b).dropWhile q = a.dropWhile q ++ b := by
  intro a
  induction a with
  | nil => intro b h; exact absurd rfl h
  | cons c cs ih =>
    intro b h
    rw [List.cons_append, List.dropWhile_cons, List.dropWhile_cons] at *
    cases hq : q c
    · simp
    · simp only [hq, if_true] at h ⊢
      exact ih b h

theorem dropWhile_reverse_ne_nil (q : Char → Bool) (c : Char) (cs : List Char)
    (hc : q c = false) : (c :: cs).reverse.dropWhile q ≠ [] := by
  intro h
  have hall := List.dropWhile_eq_nil_iff.mp h c (by simp)
  rw [hc] at hall
  exact Bool.noConfusion hall

theorem take_length_dropWhile_reverse (q : Char → Bool) (l : List Char) :
    l.take (l.reverse.dropWhile q).length = (l.reverse.dropWhile q).reverse := by
  have h := List.takeWhile_append_dropWhile q l.reverse
  have hl : l = (l.reverse.dropWhile q).reverse ++ (l.reverse.takeWhile q).reverse := by
    rw [← List.reverse_append, h, List.reverse_reverse]
  have key : ∀ D T : List Char, l = D.reverse ++ T.reverse → l.take D.length = D.reverse := by
    intro D T hDT
    rw [hDT]
    exact List.take_left' (List.length_reverse D)
  exact key _ _ hl

/-- The function `trim` removes the leading and the trailing white space. -/
theorem trim_eq_stripped (s : Str) (hlen : s.length ≤ npos) : trim s = stripped s := by
  have hfirst : find_first_not_of s whitespace 0 =
      if s.dropWhile isBlank = [] then npos else 0 + (s.takeWhile isBlank).length := by
    unfold find_first_not_of
    rw [List.drop_zero]
    have : (fun c => !whitespace.contains c) = (fun c => !isBlank c) := by
      funext c; rw [whitespace_contains]
    rw [this]
    exact findFrom_eq isBlank s 0
  have hsplit := List.takeWhile_append_dropWhile isBlank s
  unfold trim stripped
  simp only []
  rw [hfirst]
  cases hC : s.dropWhile isBlank with
  | nil => simp
  | cons c cs =>
    have hc : isBlank c = false := by
      have := List.head_dropWhile_not isBlank s (by rw [hC]; simp)
      simpa [hC] using this
    rw [hC] at hsplit
    have hn1 : (s.takeWhile isBlank).length < s.length := by
      have := congrArg List.length hsplit
      rw [List.length_append, List.length_cons] at this
      omega
    have hne : (c :: cs).reverse.dropWhile isBlank ≠ [] := dropWhile_reverse_ne_nil isBlank c cs hc
    have hrev : s.reverse.dropWhile isBlank
        = (c :: cs).reverse.dropWhile isBlank ++ (s.takeWhile isBlank).reverse := by
      conv_lhs => rw [← hsplit, List.reverse_append]
      exact dropWhile_append_of_ne_nil isBlank _ _ hne
    have hne2 : s.reverse.dropWhile isBlank ≠ [] := by
      rw [hrev]
      intro h
      exact hne (List.append_eq_nil.mp h).1
    have hlast : find_last_not_of s whitespace + 1 = (s.reverse.dropWhile isBlank).length := by
      unfold find_last_not_of
      have : (fun c => !whitespace.contains c) = (fun c => !isBlank c) := by
        funext c; rw [whitespace_contains]
      rw [this]
      exact findLast_eq isBlank npos s hne2
    have hm : (s.reverse.dropWhile isBlank).length
        = ((c :: cs).reverse.dropWhile isBlank).length + (s.takeWhile isBlank).length := by
      rw [hrev, List.length_append, List.length_reverse]
    have hmle : (s.reverse.dropWhile isBlank).length ≤ s.length := by
      have := (List.dropWhile_sublist isBlank (l := s.reverse)).length_le
      rw [List.length_reverse] at this
      exact this
    have hnpos : npos = SIZE_MOD - 1 := rfl
    have hsz : SIZE_MOD = 2 ^ 64 := rfl
    clear hfirst
    simp only [List.cons_ne_nil, if_false]
    rw [if_neg (by omega)]
    have hrange : (find_last_not_of s whitespace + SIZE_MOD - (0 + (s.takeWhile isBlank).length) + 1)
        % SIZE_MOD = ((c :: cs).reverse.dropWhile isBlank).length := by
      simp only [SIZE_MOD] at hnpos ⊢
      omega
    rw [hrange]
    unfold substr
    have hdrop : s.drop (0 + (s.takeWhile isBlank).length) = c :: cs := by
      rw [Nat.zero_add]
      have key : ∀ W C : List Char, W ++ C = s → s.drop W.length = C := by
        intro W C hWC
        rw [← hWC]
        exact List.drop_left' rfl
      exact key _ _ hsplit
    rw [hdrop]
    exact take_length_dropWhile_reverse isBlank (c :: cs)
theorem splitLoop_length_le (str : Str) (delim : Char) :
    ∀ (fuel e : Nat) (strings : List Str), (∀ t ∈ strings, t.length ≤ str.length) →
      ∀ t ∈ splitLoop str delim fuel e strings, t.length ≤ str.length := by
  intro fuel
  induction fuel with
  | zero => intro e strings h t ht; exact h t ht
  | succ fuel ih =>
    intro e strings h t ht
    rw [splitLoop] at ht
    simp only [] at ht
    split at ht
    · exact h t ht
    · refine ih _ _ ?_ t ht
      intro u hu
      rcases List.mem_append.mp hu with hu | hu
      · exact h u hu
      · rw [List.mem_singleton] at hu
        rw [hu]
        unfold substr
        rw [List.length_take, List.length_drop]
        omega

theorem field_length_le (line : Str) (i : Nat) :
    ((split line ',').getD i []).length ≤ line.length := by
  rw [List.getD_eq_getElem?_getD]
  cases h : (split line ',')[i]? with
  | none => simp
  | some t =>
    have hmem : t ∈ split line ',' := List.mem_iff_getElem?.mpr ⟨i, h⟩
    exact splitLoop_length_le line ',' _ _ [] (by intro u hu; cases hu) t hmem

theorem trim_field (line : Str) (hlen : line.length ≤ npos) (i : Nat) :
    trim ((split line ',').getD i []) = stripped ((split line ',').getD i []) :=
  trim_eq_stripped _ (le_trans (field_length_le line i) hlen)

/-- C11: for a well-formed row (a line of at most `npos` characters, non-empty,
not a comment, 14 fields, all numeric columns parse) `readFeatures` produces
exactly one record `f`. With "trimmed" meaning "without leading and trailing
spaces, tabs and newlines" (`stripped`): `f.num` is the number in the trimmed
column 1, `f.imageName` is the trimmed column 2, `f.index` the number in the
trimmed column 4, the keypoint the numbers in columns 5 and 6,
`A(0,0), A(0,1), A(1,0), A(1,1)` the numbers in columns 7, 8, 9, 10, `f.matches`
and `f.inlierMatches` the numbers in columns 11 and 12, `f.hasPoint3D` is true
exactly when the trimmed column 13 is `true`, and the descriptor is the trimmed
column 14. Column 3 has no influence: any row with the same fields except the
third produces the same record. -/
theorem record_fields_of_row {F : Type} (stof : Str → Option F) (line : Str)
    (hlen : line.length ≤ npos)
    (h1 : line ≠ []) (h2 : line.head? ≠ some '#') (h14 : (split line ',').length = 14)
    (hw : ¬ numericColumnFails stof (split line ',')) :
    ∃ f, readFeatures stof [line] = [f] ∧
      stoi (stripped ((split line ',').getD 0 [])) = some f.num ∧
      f.imageName = stripped ((split line ',').getD 1 []) ∧
      stoi (stripped ((split line ',').getD 3 [])) = some f.index ∧
      stof (stripped ((split line ',').getD 4 [])) = some f.keypoint0 ∧
      stof (stripped ((split line ',').getD 5 [])) = some f.keypoint1 ∧
      stof (stripped ((split line ',').getD 6 [])) = some f.A00 ∧
      stof (stripped ((split line ',').getD 7 [])) = some f.A01 ∧
      stof (stripped ((split line ',').getD 8 [])) = some f.A10 ∧
      stof (stripped ((split line ',').getD 9 [])) = some f.A11 ∧
      stoi (stripped ((split line ',').getD 10 [])) = some f.matches_ ∧
      stoi (stripped ((split line ',').getD 11 [])) = some f.inlierMatches ∧
      (f.hasPoint3D = true ↔ stripped ((split line ',').getD 12 []) = "true".toList) ∧
      f.descriptorString = stripped ((split line ',').getD 13 []) ∧
      (∀ line' : Str, line' ≠ [] → line'.head? ≠ some '#' →
        (∀ i : Nat, i ≠ 2 → (split line' ',')[i]? = (split line ',')[i]?) →
        readFeatures stof [line'] = [f]) := by
  cases hp : parseFeature stof (split line ',') with
  | none => exact absurd ((parseFeature_eq_none_iff stof _).mp hp) hw
  | some f =>
    obtain ⟨a0, a1, a3, a4, a5, a6, a7, a8, a9, a10, a11, a12, a13⟩ :=
      parseFeature_fields stof _ f hp
    have ht := trim_field line hlen
    rw [ht] at a0 a1 a3 a4 a5 a6 a7 a8 a9 a10 a11 a12 a13
    refine ⟨f, ?_, a0, a1, a3, a4, a5, a6, a7, a8, a9, a10, a11, ?_, a13, ?_⟩
    · rw [readFeatures_single stof line h1 h2 h14, hp]
      rfl
    · rw [a12]
      exact beq_iff_eq
    · intro line' g1 g2 hsame
      have hlen' := length_eq_of_getElem?_eq _ _ 14 (by decide) h14 hsame
      rw [readFeatures_single stof line' g1 g2 hlen', parseFeature_congr stof _ _ hsame, hp]
      rfl

/-- A concrete instance of C11: a row with spaces and tabs around its fields,
and the same row with another image identifier in column 3. -/
theorem record_fields_of_row_witness :
    ∃ f : Feature Decimal, readFeatures stofDecimal [spacedLine] = [f] ∧
      f.num = 4 ∧ f.index = 4 ∧ f.imageName = "IMG_0013.JPG".toList ∧
      f.A01 = { mantissa := 0, scale := 6 } ∧ f.A10 = { mantissa := 66599098, scale := 6 } ∧
      f.hasPoint3D = true ∧ f.descriptorString = "0a1b".toList ∧
      readFeatures stofDecimal [spacedOtherIdLine] = [f] := by
  obtain ⟨f, hf, a0, a1, a3, _, _, _, a7, a8, _, _, _, a12, a13, hsame⟩ :=
    record_fields_of_row stofDecimal spacedLine (by decide) (by decide) (by decide) (by decide)
      (fun hc => absurd ((parseFeature_eq_none_iff stofDecimal _).mpr hc) (by decide))
  refine ⟨f, hf, ?_, ?_, ?_, ?_, ?_, ?_, ?_, ?_⟩
  · have : stoi (stripped ((split spacedLine ',').getD 0 [])) = some 4 := by decide
    rw [this] at a0
    exact (Option.some.inj a0).symm
  · have : stoi (stripped ((split spacedLine ',').getD 3 [])) = some 4 := by decide
    rw [this] at a3
    exact (Option.some.inj a3).symm
  · rw [a1]; decide
  · have : stofDecimal (stripped ((split spacedLine ',').getD 7 [])) = some ⟨0, 6⟩ := by decide
    rw [this] at a7
    exact (Option.some.inj a7).symm
  · have : stofDecimal (stripped ((split spacedLine ',').getD 8 [])) = some ⟨66599098, 6⟩ := by
      decide
    rw [this] at a8
    exact (Option.some.inj a8).symm
  · exact a12.mpr (by decide)
  · rw [a13]; decide
  · refine hsame spacedOtherIdLine (by decide) (by decide) ?_
    have e1 : split spacedOtherIdLine ',' = (split spacedLine ',').set 2 "1".toList := by decide
    intro i hi
    rw [e1, List.getElem?_set_ne (Ne.symm hi)]

/-! ## Command line: the check of max-patches -/

theorem toSizeT_gt_ten_iff (v : Int) (h1 : -2 ^ 31 ≤ v) (h2 : v < 2 ^ 31) :
    toSizeT v > 10 ↔ (10 < v ∨ v < 0) := by
  simp only [toSizeT]
  omega

theorem atoi_range (arg : Str) : -2 ^ 31 ≤ atoi arg ∧ atoi arg < 2 ^ 31 := by
  unfold atoi
  exact toInt32_range _

/-- C12 (the code lets negative values through): the argument `-5` has the
integer value `-5`, which is not greater than 10, yet `maxPatches` becomes
`2 ^ 64 - 5` and the check `maxPatches > 10` passes, so the run goes on to read
the features. The check fails exactly for the values `0, ..., 10` (among them
non-numeric text, whose value is `0`). -/
theorem negative_max_patches_passes_the_check :
    atoi "-5".toList = -5 ∧
    maxPatchesOfArg "-5".toList = some (2 ^ 64 - 5) ∧
    maxPatchesOfArg "0".toList = none ∧
    maxPatchesOfArg "ten".toList = none ∧
    maxPatchesOfArg "10".toList = none ∧
    maxPatchesOfArg "11".toList = some 11 ∧
    (∀ arg : Str, maxPatchesOfArg arg = none ↔ (0 ≤ atoi arg ∧ atoi arg ≤ 10)) := by
  refine ⟨by decide, by decide, by decide, by decide, by decide, by decide, ?_⟩
  intro arg
  have hr := atoi_range arg
  have hiff := toSizeT_gt_ten_iff (atoi arg) hr.1 hr.2
  unfold maxPatchesOfArg
  by_cases hc : toSizeT (atoi arg) > 10
  · simp only [hc, if_true]
    have := hiff.mp hc
    constructor
    · intro h; exact Option.noConfusion h
    · intro h; omega
  · simp only [hc, if_false, true_iff]
    have : ¬ (10 < atoi arg ∨ atoi arg < 0) := fun h => hc (hiff.mpr h)
    omega

/-! ## Sampling: the number of samples -/

theorem cap_lt_twice_samples (m L : Nat) (hm : 1 ≤ m) (hmL : m ≤ L) :
    m < 2 * ((L + (L + m - 1) / m - 1) / ((L + m - 1) / m)) := by
  have hL : 1 ≤ L := by omega
  have hs := stride_pos m L hm hL
  have h1 : m * ((L + m - 1) / m) ≤ L + m - 1 := Nat.mul_div_le _ _
  have h2 : ¬ ((L + (L + m - 1) / m - 1) / ((L + m - 1) / m)) * ((L + m - 1) / m) < L := by
    intro hc
    have := (lt_ceilDiv_iff L ((L + m - 1) / m) _ hs).mpr hc
    omega
  by_contra hc
  have h3 : 2 * ((L + (L + m - 1) / m - 1) / ((L + m - 1) / m)) * ((L + m - 1) / m)
      ≤ m * ((L + m - 1) / m) := Nat.mul_le_mul_right _ (by omega)
  rw [Nat.mul_assoc] at h3
  omega

/-- C18: for a partition of length `L >= 1` (a vector, so `L < 2^63`) and a cap
`K >= 1` the sampler returns `n = ceil (L / ceil (L / min K L))` samples, and
`min K L < 2 * n <= 2 * min K L`; for `L = K + 1` the stride is 2 and
`n = ceil ((K + 1) / 2)`, which is below `min K L = K` as soon as `K >= 3`. -/
theorem sample_count_bounds {α : Type} (K : Nat) (indices : List α)
    (hL : 1 ≤ indices.length) (hK : 1 ≤ K) (hsz : indices.length < 2 ^ 63) :
    ∃ g, samplePatchIndices K indices = Outcome.ok g ∧
      g.length = ⌈(indices.length : ℚ) / (⌈(indices.length : ℚ) / (min K indices.length : ℕ)⌉₊ : ℕ)⌉₊ ∧
      min K indices.length < 2 * g.length ∧
      2 * g.length ≤ 2 * min K indices.length ∧
      (indices.length = K + 1 →
        ⌈(indices.length : ℚ) / (min K indices.length : ℕ)⌉₊ = 2 ∧
        g.length = ⌈((K : ℚ) + 1) / 2⌉₊ ∧
        (3 ≤ K → g.length < min K indices.length)) := by
  obtain ⟨g, hrun, hlen, _⟩ := samplePatchIndices_run K indices hK hL hsz
  have hm : 1 ≤ min K indices.length := Nat.le_min.mpr ⟨hK, hL⟩
  have hmL : min K indices.length ≤ indices.length := Nat.min_le_right _ _
  have hs := stride_pos _ _ hm hL
  have hle := samples_le_cap _ _ hm hL
  have hlt := cap_lt_twice_samples _ _ hm hmL
  rw [ceil_div_eq indices.length (min K indices.length) (by omega),
    ceil_div_eq indices.length _ hs]
  refine ⟨g, hrun, hlen, by rw [hlen]; exact hlt, by rw [hlen]; omega, ?_⟩
  intro hK1
  have hmin : min K indices.length = K := by rw [hK1]; exact Nat.min_eq_left (by omega)
  have hstride : (indices.length + min K indices.length - 1) / min K indices.length = 2 := by
    rw [hmin, hK1]
    apply Nat.div_eq_of_lt_le
    · have : 2 * K = K + K := by ring
      omega
    · have : (2 + 1) * K = K + K + K := by ring
      omega
  have hhalf : ⌈((K : ℚ) + 1) / 2⌉₊ = (K + 1 + 2 - 1) / 2 := by
    have := ceil_div_eq (K + 1) 2 (by decide)
    push_cast at this
    exact this
  refine ⟨hstride, ?_, ?_⟩
  · rw [hlen, hstride, hhalf, hK1]
  · intro h3
    rw [hlen, hstride, hmin, hK1]
    omega

/-- A concrete instance of C18: cap 11 and a partition of 12 elements give 6
samples. -/
theorem sample_count_bounds_witness :
    ∃ g, samplePatchIndices 11 (List.range 12) = Outcome.ok g ∧ g.length = 6 ∧
      min 11 (List.range 12).length < 2 * g.length ∧
      2 * g.length ≤ 2 * min 11 (List.range 12).length := by
  obtain ⟨g, hrun, _, h1, h2, _⟩ :=
    sample_count_bounds 11 (List.range 12) (by decide) (by decide) (by decide)
  have hg : samplePatchIndices 11 (List.range 12) = Outcome.ok [0, 2, 4, 6, 8, 10] := by decide
  rw [hg] at hrun
  have := Outcome.ok.inj hrun
  subst this
  exact ⟨_, hg, rfl, h1, h2⟩

/-! ## Compositing: which rectangle a patch is copied to -/

theorem sizeMapLoop_inv :
    ∀ (rest pre : List rect_xywh) (m : SizeMap),
      m.map Prod.snd = List.range pre.length →
      m.map Prod.fst = pre.map (fun r => (r.w, r.h)) →
      (∀ e ∈ m, ∃ r, pre[e.2]? = some r ∧ e.1 = (r.w, r.h)) →
      (sizeMapLoop rest pre.length m).map Prod.snd = List.range (pre ++ rest).length ∧
      (sizeMapLoop rest pre.length m).map Prod.fst = (pre ++ rest).map (fun r => (r.w, r.h)) ∧
      (∀ e ∈ sizeMapLoop rest pre.length m,
        ∃ r, (pre ++ rest)[e.2]? = some r ∧ e.1 = (r.w, r.h)) := by
  intro rest
  induction rest with
  | nil =>
    intro pre m h1 h2 h3
    simp only [sizeMapLoop, List.append_nil]
    exact ⟨h1, h2, h3⟩
  | cons r rs ih =>
    intro pre m h1 h2 h3
    have hlen : (pre ++ [r]).length = pre.length + 1 := by simp
    have := ih (pre ++ [r]) (m ++ [((r.w, r.h), pre.length)])
      (by rw [List.map_append, h1, hlen, List.range_succ]; rfl)
      (by rw [List.map_append, h2, List.map_append]; rfl)
      (by
        intro e he
        rcases List.mem_append.mp he with he | he
        · obtain ⟨r', hr', hk⟩ := h3 e he
          refine ⟨r', ?_, hk⟩
          have hlt : e.2 < pre.length := by
            by_contra hc
            rw [List.getElem?_eq_none (by omega)] at hr'
            exact Option.noConfusion hr'
          rw [List.getElem?_append_left hlt]
          exact hr'
        · rw [List.mem_singleton] at he
          subst he
          exact ⟨r, by simp, rfl⟩)
    rw [hlen, List.append_assoc, List.singleton_append] at this
    rw [sizeMapLoop]
    exact this

theorem buildSizeMap_spec (rects : List rect_xywh) :
    (buildSizeMap rects).map Prod.snd = List.range rects.length ∧
    (buildSizeMap rects).map Prod.fst = rects.map (fun r => (r.w, r.h)) ∧
    (∀ e ∈ buildSizeMap rects, ∃ r, rects[e.2]? = some r ∧ e.1 = (r.w, r.h)) := by
  have := sizeMapLoop_inv rects [] [] rfl rfl (by intro e he; cases he)
  simp only [List.nil_append, List.length_nil] at this
  exact this

theorem mapErase_sublist (m : SizeMap) (wh : Int × Int) : List.Sublist (mapErase m wh) m := by
  induction m with
  | nil => exact List.Sublist.refl _
  | cons e rest ih =>
    obtain ⟨k, i⟩ := e
    rw [mapErase]
    by_cases hk : k = wh
    · rw [if_pos hk]; exact List.sublist_cons_self _ _
    · rw [if_neg hk]; exact ih.cons₂ _

theorem mapFind_mem (m : SizeMap) (wh : Int × Int) (i : Nat) (h : mapFind m wh = some i) :
    (wh, i) ∈ m := by
  induction m with
  | nil => exact Option.noConfusion h
  | cons e rest ih =>
    obtain ⟨k, j⟩ := e
    rw [mapFind] at h
    by_cases hk : k = wh
    · rw [if_pos hk] at h
      have := Option.some.inj h
      subst this; subst hk
      exact List.mem_cons_self _ _
    · rw [if_neg hk] at h
      exact List.mem_cons_of_mem _ (ih h)

theorem mapFind_not_mem_erase (m : SizeMap) (wh : Int × Int) (i : Nat)
    (hnd : (m.map Prod.snd).Nodup) (h : mapFind m wh = some i) :
    i ∉ (mapErase m wh).map Prod.snd := by
  induction m with
  | nil => exact Option.noConfusion h
  | cons e rest ih =>
    obtain ⟨k, j⟩ := e
    rw [List.map_cons, List.nodup_cons] at hnd
    rw [mapFind] at h
    rw [mapErase]
    by_cases hk : k = wh
    · rw [if_pos hk] at h ⊢
      have := Option.some.inj h
      subst this
      exact hnd.1
    · rw [if_neg hk] at h ⊢
      rw [List.map_cons, List.mem_cons]
      intro hc
      rcases hc with hc | hc
      · have hmem := mapFind_mem rest wh i h
        have : i ∈ rest.map Prod.snd := List.mem_map.mpr ⟨(wh, i), hmem, rfl⟩
        rw [hc] at this
        exact hnd.1 this
      · exact ih hnd.2 h hc

theorem roiOf_size (p : Patch) (rect : rect_xywh)
    (hw : -2 ^ 31 ≤ p.rect.width ∧ p.rect.width < 2 ^ 31 - 4)
    (hh : -2 ^ 31 ≤ p.rect.height ∧ p.rect.height < 2 ^ 31 - 4)
    (hk : (rect.w, rect.h) = paddedKey p) :
    rect.w = p.rect.width + 4 ∧ rect.h = p.rect.height + 4 ∧
    roiOf rect = { x := rect.x, y := rect.y, width := p.rect.width, height := p.rect.height } := by
  have h1 : rect.w = (paddedKey p).1 := congrArg Prod.fst hk
  have h2 : rect.h = (paddedKey p).2 := congrArg Prod.snd hk
  simp only [paddedKey, toSizeT, padding, SIZE_MOD, toInt32] at h1 h2
  have e1 : rect.w = p.rect.width + 4 := by omega
  have e2 : rect.h = p.rect.height + 4 := by omega
  refine ⟨e1, e2, ?_⟩
  simp only [roiOf, toSizeT, padding, SIZE_MOD, toInt32, e1, e2, Rect.mk.injEq, true_and]
  omega
theorem packedPatchesStep_ok (imread : Str → Mat) (imageFolder : Str) (rects : List rect_xywh)
    (st st' : CompositeState) (p : Patch)
    (h : packedPatchesStep imread imageFolder rects st p = Except.ok st') :
    (rectAnd p.rect (loadImage imread imageFolder st.cache p).currentImageRect ≠ p.rect ∧
      st' = { cache := loadImage imread imageFolder st.cache p,
              packedPatches := st.packedPatches,
              sizeToRectIndexMap := st.sizeToRectIndexMap,
              log := st.log ++ [PatchOutcome.dropped p] }) ∨
    (rectAnd p.rect (loadImage imread imageFolder st.cache p).currentImageRect = p.rect ∧
      ∃ index rect, mapFind st.sizeToRectIndexMap (paddedKey p) = some index ∧
        rects[index]? = some rect ∧ roiInside st.packedPatches (roiOf rect) ∧
        st' = { cache := loadImage imread imageFolder st.cache p,
                packedPatches := copyTo (loadImage imread imageFolder st.cache p).currentImage
                  p.rect st.packedPatches (roiOf rect),
                sizeToRectIndexMap := mapErase st.sizeToRectIndexMap (paddedKey p),
                log := st.log ++ [PatchOutcome.composited p index (roiOf rect)] }) := by
  unfold packedPatchesStep at h
  simp only [] at h
  by_cases hin : rectAnd p.rect (loadImage imread imageFolder st.cache p).currentImageRect = p.rect
  · right
    rw [if_neg (by simpa using hin)] at h
    refine ⟨hin, ?_⟩
    cases hf : mapFind st.sizeToRectIndexMap (paddedKey p) with
    | none => rw [hf] at h; cases h
    | some index =>
      rw [hf] at h
      simp only [] at h
      cases hr : rects[index]? with
      | none => rw [hr] at h; cases h
      | some rect =>
        rw [hr] at h
        simp only [] at h
        by_cases hroi : roiInside st.packedPatches (roiOf rect)
        · rw [if_pos hroi] at h
          exact ⟨index, rect, rfl, hr, hroi, (Except.ok.inj h).symm⟩
        · rw [if_neg hroi] at h; cases h
  · left
    rw [if_pos (by simpa using hin)] at h
    exact ⟨hin, (Except.ok.inj h).symm⟩

theorem usedIndices_append (a b : List PatchOutcome) :
    usedIndices (a ++ b) = usedIndices a ++ usedIndices b := by
  induction a with
  | nil => rfl
  | cons o rest ih =>
    cases o with
    | dropped p => simpa [usedIndices] using ih
    | composited p i r => simpa [usedIndices] using ih

theorem packedPatchesLoop_inv (imread : Str → Mat) (imageFolder : Str)
    (rects : List rect_xywh) :
    ∀ (patches : List Patch) (st st' : CompositeState),
      List.Sublist st.sizeToRectIndexMap (buildSizeMap rects) →
      (∀ p idx roi, PatchOutcome.composited p idx roi ∈ st.log →
        ∃ rect, rects[idx]? = some rect ∧ (rect.w, rect.h) = paddedKey p ∧ roi = roiOf rect) →
      (usedIndices st.log).Nodup →
      (∀ i ∈ usedIndices st.log, i ∉ st.sizeToRectIndexMap.map Prod.snd) →
      packedPatchesLoop imread imageFolder rects patches st = Except.ok st' →
      List.Sublist st'.sizeToRectIndexMap (buildSizeMap rects) ∧
      (∀ p idx roi, PatchOutcome.composited p idx roi ∈ st'.log →
        ∃ rect, rects[idx]? = some rect ∧ (rect.w, rect.h) = paddedKey p ∧ roi = roiOf rect) ∧
      (usedIndices st'.log).Nodup ∧
      (∀ i ∈ usedIndices st'.log, i ∉ st'.sizeToRectIndexMap.map Prod.snd) ∧
      st'.log.map loggedPatch = st.log.map loggedPatch ++ patches := by
  intro patches
  induction patches with
  | nil =>
    intro st st' h1 h2 h3 h4 hrun
    rw [packedPatchesLoop] at hrun
    have := Except.ok.inj hrun
    subst this
    exact ⟨h1, h2, h3, h4, by simp⟩
  | cons p rest ih =>
    intro st st' h1 h2 h3 h4 hrun
    rw [packedPatchesLoop] at hrun
    cases hstep : packedPatchesStep imread imageFolder rects st p with
    | error e => rw [hstep] at hrun; cases hrun
    | ok st1 =>
      rw [hstep] at hrun
      simp only [] at hrun
      have hspec := buildSizeMap_spec rects
      have hnd : (st.sizeToRectIndexMap.map Prod.snd).Nodup := by
        have : ((buildSizeMap rects).map Prod.snd).Nodup := by
          rw [hspec.1]; exact List.nodup_range _
        exact List.Nodup.sublist (h1.map _) this
      rcases packedPatchesStep_ok imread imageFolder rects st st1 p hstep with
        ⟨_, hst1⟩ | ⟨_, index, rect, hfind, hrect, _, hst1⟩
      · obtain ⟨a1, a2, a3, a4, a5⟩ := ih st1 st'
          (by rw [hst1]; exact h1)
          (by
            rw [hst1]
            intro q idx roi hq
            simp only [List.mem_append, List.mem_singleton] at hq
            rcases hq with hq | hq
            · exact h2 q idx roi hq
            · cases hq)
          (by rw [hst1]; simpa [usedIndices_append, usedIndices] using h3)
          (by rw [hst1]; simpa [usedIndices_append, usedIndices] using h4)
          hrun
        refine ⟨a1, a2, a3, a4, ?_⟩
        rw [a5, hst1]
        simp [loggedPatch]
      · have hmem := mapFind_mem _ _ _ hfind
        have hmem' : (paddedKey p, index) ∈ buildSizeMap rects := h1.subset hmem
        obtain ⟨r', hr', hk'⟩ := hspec.2.2 _ hmem'
        have hrr : r' = rect := by
          simp only [] at hr'
          rw [hrect] at hr'
          exact (Option.some.inj hr').symm
        subst hrr
        have hfresh : index ∉ usedIndices st.log := by
          intro hc
          exact h4 index hc (List.mem_map.mpr ⟨(paddedKey p, index), hmem, rfl⟩)
        obtain ⟨a1, a2, a3, a4, a5⟩ := ih st1 st'
          (by rw [hst1]; exact (mapErase_sublist _ _).trans h1)
          (by
            rw [hst1]
            intro q idx roi hq
            simp only [List.mem_append, List.mem_singleton] at hq
            rcases hq with hq | hq
            · exact h2 q idx roi hq
            · cases hq
              exact ⟨r', hrect, hk'.symm, rfl⟩)
          (by
            rw [hst1]
            simp only [usedIndices_append, usedIndices]
            rw [List.nodup_append]
            refine ⟨h3, List.nodup_singleton _, ?_⟩
            intro i hi hi'
            rw [List.mem_singleton] at hi'
            subst hi'
            exact hfresh hi)
          (by
            rw [hst1]
            intro i hi
            simp only [usedIndices_append, usedIndices, List.mem_append, List.mem_singleton] at hi
            rcases hi with hi | hi
            · intro hc
              exact h4 i hi (((mapErase_sublist _ _).map _).subset hc)
            · subst hi
              exact mapFind_not_mem_erase _ _ _ hnd hfind)
          hrun
        refine ⟨a1, a2, a3, a4, ?_⟩
        rw [a5, hst1]
        simp [loggedPatch]
theorem copyTo_pixel (img : Mat) (rect : Rect) (canvas : Mat) (roi : Rect)
    (hw : roi.width = rect.width) (hh : roi.height = rect.height) (x y : Int) :
    (copyTo img rect canvas roi).pixel x y =
      if roi.x ≤ x ∧ x < roi.x + roi.width ∧ roi.y ≤ y ∧ y < roi.y + roi.height then
        img.pixel (rect.x + (x - roi.x)) (rect.y + (y - roi.y))
      else canvas.pixel x y := by
  unfold copyTo
  rw [if_pos ⟨hw, hh⟩]

theorem mem_usedIndices (log : List PatchOutcome) (p : Patch) (idx : Nat) (roi : Rect)
    (h : PatchOutcome.composited p idx roi ∈ log) : idx ∈ usedIndices log := by
  induction log with
  | nil => cases h
  | cons o rest ih =>
    rcases List.mem_cons.mp h with h' | h'
    · subst h'
      exact List.mem_cons_self _ _
    · cases o with
      | dropped q => exact ih h'
      | composited q i r => exact List.mem_cons_of_mem _ (ih h')

theorem packedPatchesLoop_append (imread : Str → Mat) (imageFolder : Str)
    (rects : List rect_xywh) :
    ∀ (pre post : List Patch) (s0 : CompositeState),
      packedPatchesLoop imread imageFolder rects (pre ++ post) s0 =
        match packedPatchesLoop imread imageFolder rects pre s0 with
        | Except.error e => Except.error e
        | Except.ok s1 => packedPatchesLoop imread imageFolder rects post s1 := by
  intro pre
  induction pre with
  | nil => intro post s0; rfl
  | cons p rest ih =>
    intro post s0
    rw [List.cons_append, packedPatchesLoop, packedPatchesLoop]
    cases packedPatchesStep imread imageFolder rects s0 p with
    | error e => rfl
    | ok s1 => exact ih post s1

/-- C13: when `packedPatchesImage` runs to its end on a patch list (crop sizes
and padded sizes within the `int` range) with the multimap built from the packed
rectangles, every patch has one entry in the record, in order; a patch that was
composited through rectangle number `idx` was copied to the region whose origin
is the `(x, y)` of `packedRectangles[idx]`, a rectangle of size `(W + 4, H + 4)`,
and whose size is `(W, H)`; the entry of `idx` is no longer in the multimap, and
no rectangle number is used twice. For a single pass of the loop: the pass that
composites a patch erases the entry it found, writes the pixels of the crop
rectangle into the region and leaves every other pixel of the canvas as it was.
The loop over a list is the loop over a first part followed by the loop over the
rest, so all of this also holds for the patches composited before a run stops
early. -/
theorem composited_patch_matches_packed_rectangle (imread : Str → Mat) (imageFolder : Str)
    (cache : ImageCache) (patches : List Patch) (packedRectangles : List rect_xywh)
    (packedImageSize : rect_wh) (st : CompositeState)
    (hp : ∀ p ∈ patches,
      (-2 ^ 31 ≤ p.rect.width ∧ p.rect.width < 2 ^ 31 - 4) ∧
      (-2 ^ 31 ≤ p.rect.height ∧ p.rect.height < 2 ^ 31 - 4))
    (hrun : packedPatchesImage imread imageFolder cache patches packedRectangles
      (buildSizeMap packedRectangles) packedImageSize = Except.ok st) :
    st.log.map loggedPatch = patches ∧
    (∀ p idx roi, PatchOutcome.composited p idx roi ∈ st.log →
      ∃ rect, packedRectangles[idx]? = some rect ∧
        rect.w = p.rect.width + 4 ∧ rect.h = p.rect.height + 4 ∧
        roi = { x := rect.x, y := rect.y, width := p.rect.width, height := p.rect.height } ∧
        idx ∉ st.sizeToRectIndexMap.map Prod.snd) ∧
    (usedIndices st.log).Nodup ∧
    List.Sublist st.sizeToRectIndexMap (buildSizeMap packedRectangles) ∧
    (∀ (s0 s1 : CompositeState) (p : Patch) (idx : Nat) (roi : Rect),
      packedPatchesStep imread imageFolder packedRectangles s0 p = Except.ok s1 →
      s1.log = s0.log ++ [PatchOutcome.composited p idx roi] →
      roi.width = p.rect.width → roi.height = p.rect.height →
      mapFind s0.sizeToRectIndexMap (paddedKey p) = some idx ∧
      s1.sizeToRectIndexMap = mapErase s0.sizeToRectIndexMap (paddedKey p) ∧
      ∀ x y : Int,
        ((roi.x ≤ x ∧ x < roi.x + roi.width ∧ roi.y ≤ y ∧ y < roi.y + roi.height) →
          s1.packedPatches.pixel x y =
            (loadImage imread imageFolder s0.cache p).currentImage.pixel
              (p.rect.x + (x - roi.x)) (p.rect.y + (y - roi.y))) ∧
        (¬ (roi.x ≤ x ∧ x < roi.x + roi.width ∧ roi.y ≤ y ∧ y < roi.y + roi.height) →
          s1.packedPatches.pixel x y = s0.packedPatches.pixel x y)) ∧
    (∀ (pre post : List Patch) (s0 : CompositeState),
      packedPatchesLoop imread imageFolder packedRectangles (pre ++ post) s0 =
        match packedPatchesLoop imread imageFolder packedRectangles pre s0 with
        | Except.error e => Except.error e
        | Except.ok s1 => packedPatchesLoop imread imageFolder packedRectangles post s1) := by
  unfold packedPatchesImage at hrun
  obtain ⟨a1, a2, a3, a4, a5⟩ := packedPatchesLoop_inv imread imageFolder packedRectangles
    patches
    { cache := cache,
      packedPatches := { cols := packedImageSize.w, rows := packedImageSize.h,
                         pixel := fun _ _ => 0 },
      sizeToRectIndexMap := buildSizeMap packedRectangles,
      log := [] }
    st (List.Sublist.refl _) (by intro p idx roi h; cases h) List.nodup_nil
    (by intro i h; cases h) hrun
  have hlog : st.log.map loggedPatch = patches := by
    rw [a5]; rfl
  refine ⟨hlog, ?_, a3, a1, ?_, packedPatchesLoop_append imread imageFolder packedRectangles⟩
  · intro p idx roi hmem
    obtain ⟨rect, hrect, hk, hroi⟩ := a2 p idx roi hmem
    have hpm : p ∈ patches := by
      rw [← hlog]
      exact List.mem_map.mpr ⟨_, hmem, rfl⟩
    obtain ⟨hw, hh⟩ := hp p hpm
    obtain ⟨e1, e2, e3⟩ := roiOf_size p rect hw hh hk
    refine ⟨rect, hrect, e1, e2, by rw [hroi, e3], ?_⟩
    exact a4 idx (mem_usedIndices st.log p idx roi hmem)
  · intro s0 s1 p idx roi hstep hlog1 hw hh
    rcases packedPatchesStep_ok imread imageFolder packedRectangles s0 s1 p hstep with
      ⟨_, hs1⟩ | ⟨_, index, rect, hfind, _, _, hs1⟩
    · rw [hs1] at hlog1
      have h2 := List.append_cancel_left hlog1
      cases h2
    · rw [hs1] at hlog1
      have h2 := List.append_cancel_left hlog1
      have h3 := List.head_eq_of_cons_eq h2
      have hidx : index = idx := by injection h3
      have hroi : roiOf rect = roi := by injection h3
      subst hidx
      rw [hroi] at hs1
      have hmap : s1.sizeToRectIndexMap = mapErase s0.sizeToRectIndexMap (paddedKey p) :=
        congrArg CompositeState.sizeToRectIndexMap hs1
      have hcanvas : s1.packedPatches =
          copyTo (loadImage imread imageFolder s0.cache p).currentImage p.rect s0.packedPatches
            roi := congrArg CompositeState.packedPatches hs1
      refine ⟨hfind, hmap, ?_⟩
      intro x y
      rw [hcanvas, copyTo_pixel _ _ _ _ hw hh]
      constructor
      · intro hin
        rw [if_pos hin]
      · intro hout
        rw [if_neg hout]
/-- A concrete instance of C13: three patches of equal size, the second of which
is dropped; the first and the third use the rectangles number 0 and 1. -/
theorem composited_patch_matches_packed_rectangle_witness :
    ∃ st, packedPatchesImage sampleImread "images".toList initialCache samplePatches
        samplePacking (buildSizeMap samplePacking) { w := 68, h := 68 } = Except.ok st ∧
      usedIndices st.log = [0, 1] ∧ (usedIndices st.log).Nodup ∧
      st.log.map loggedPatch = samplePatches := by
  have hlog : (packedPatchesImage sampleImread "images".toList initialCache samplePatches
      samplePacking (buildSizeMap samplePacking) { w := 68, h := 68 }).toOption.map
        (fun st => usedIndices st.log) = some [0, 1] := by decide
  cases hrun : packedPatchesImage sampleImread "images".toList initialCache samplePatches
      samplePacking (buildSizeMap samplePacking) { w := 68, h := 68 } with
  | error e => rw [hrun] at hlog; cases hlog
  | ok st =>
    rw [hrun] at hlog
    have hused : usedIndices st.log = [0, 1] := Option.some.inj hlog
    obtain ⟨h1, _, h3, _⟩ := composited_patch_matches_packed_rectangle sampleImread
      "images".toList initialCache samplePatches samplePacking { w := 68, h := 68 } st
      (by decide) hrun
    exact ⟨st, rfl, hused, h3, h1⟩

/-! ## Compositing: the size lookup -/

theorem mapFind_of_mem_keys (m : SizeMap) (wh : Int × Int) (h : wh ∈ m.map Prod.fst) :
    ∃ i, mapFind m wh = some i := by
  induction m with
  | nil => cases h
  | cons e rest ih =>
    obtain ⟨k, j⟩ := e
    rw [mapFind]
    by_cases hk : k = wh
    · exact ⟨j, by rw [if_pos hk]⟩
    · rw [if_neg hk]
      rw [List.map_cons, List.mem_cons] at h
      rcases h with h | h
      · exact absurd h.symm hk
      · exact ih h

theorem mapErase_keys_perm (m : SizeMap) (wh : Int × Int) (h : wh ∈ m.map Prod.fst) :
    List.Perm (m.map Prod.fst) (wh :: (mapErase m wh).map Prod.fst) := by
  induction m with
  | nil => cases h
  | cons e rest ih =>
    obtain ⟨k, j⟩ := e
    rw [mapErase]
    by_cases hk : k = wh
    · rw [if_pos hk, List.map_cons]
      subst hk
      exact List.Perm.refl _
    · rw [if_neg hk, List.map_cons, List.map_cons]
      rw [List.map_cons, List.mem_cons] at h
      rcases h with h | h
      · exact absurd h.symm hk
      · exact ((ih h).cons k).trans (List.Perm.swap wh k _)

theorem packedPatchesLoop_lookup (imread : Str → Mat) (imageFolder : Str)
    (rects : List rect_xywh) :
    ∀ (patches : List Patch) (st : CompositeState),
      List.Sublist st.sizeToRectIndexMap (buildSizeMap rects) →
      (∃ extra, List.Perm (st.sizeToRectIndexMap.map Prod.fst) (patches.map paddedKey ++ extra)) →
      packedPatchesLoop imread imageFolder rects patches st
        ≠ Except.error CompositeFault.assertionFailed ∧
      packedPatchesLoop imread imageFolder rects patches st
        ≠ Except.error CompositeFault.indexOutOfRange := by
  intro patches
  induction patches with
  | nil =>
    intro st _ _
    rw [packedPatchesLoop]
    exact ⟨(by intro h; cases h), (by intro h; cases h)⟩
  | cons p rest ih =>
    intro st hsub hperm
    obtain ⟨extra, hperm⟩ := hperm
    rw [List.map_cons, List.cons_append] at hperm
    rw [packedPatchesLoop]
    unfold packedPatchesStep
    simp only []
    by_cases hin : rectAnd p.rect (loadImage imread imageFolder st.cache p).currentImageRect = p.rect
    · rw [if_neg (by simpa using hin)]
      have hkey : paddedKey p ∈ st.sizeToRectIndexMap.map Prod.fst :=
        hperm.symm.subset (List.mem_cons_self _ _)
      obtain ⟨index, hfind⟩ := mapFind_of_mem_keys _ _ hkey
      rw [hfind]
      simp only []
      have hmem : (paddedKey p, index) ∈ buildSizeMap rects :=
        hsub.subset (mapFind_mem _ _ _ hfind)
      obtain ⟨rect, hrect, _⟩ := (buildSizeMap_spec rects).2.2 _ hmem
      simp only [] at hrect
      rw [hrect]
      simp only []
      by_cases hroi : roiInside st.packedPatches (roiOf rect)
      · rw [if_pos hroi]
        simp only []
        apply ih
        · exact (mapErase_sublist _ _).trans hsub
        · exact ⟨extra, ((mapErase_keys_perm _ _ hkey).symm.trans hperm).cons_inv⟩
      · rw [if_neg hroi]
        exact ⟨(by intro h; cases h), (by intro h; cases h)⟩
    · rw [if_pos (by simpa using hin)]
      simp only []
      exact ih
        { cache := loadImage imread imageFolder st.cache p, packedPatches := st.packedPatches,
          sizeToRectIndexMap := st.sizeToRectIndexMap,
          log := st.log ++ [PatchOutcome.dropped p] }
        hsub ⟨paddedKey p :: extra, hperm.trans List.perm_middle.symm⟩

/-- C14: if the rectangles returned by the packer have, as a multiset, the sizes
of the rectangles that `packRectangles` submitted for the patches, then for every
image reader (every pattern of in-bounds and out-of-bounds patches), every image
cache and every canvas size the run of `packedPatchesImage` never stops at the
assertion `iter != end` of line 304, and the index it finds is never past the end
of the rectangle list; patches of equal padded size are no exception. -/
theorem size_lookup_never_fails (imread : Str → Mat) (imageFolder : Str)
    (cache : ImageCache) (patches : List Patch) (packedRectangles : List rect_xywh)
    (packedImageSize : rect_wh)
    (hperm : List.Perm (packedRectangles.map (fun r => (r.w, r.h)))
      ((paddedRectangles patches).map (fun r => (r.w, r.h)))) :
    packedPatchesImage imread imageFolder cache patches packedRectangles
        (buildSizeMap packedRectangles) packedImageSize
      ≠ Except.error CompositeFault.assertionFailed ∧
    packedPatchesImage imread imageFolder cache patches packedRectangles
        (buildSizeMap packedRectangles) packedImageSize
      ≠ Except.error CompositeFault.indexOutOfRange := by
  have hkeys : (paddedRectangles patches).map (fun r => (r.w, r.h)) = patches.map paddedKey := by
    simp only [paddedRectangles, List.map_map]
    rfl
  rw [hkeys] at hperm
  unfold packedPatchesImage
  apply packedPatchesLoop_lookup
  · exact List.Sublist.refl _
  · refine ⟨[], ?_⟩
    simp only [List.append_nil]
    rw [(buildSizeMap_spec packedRectangles).2.1]
    exact hperm

/-- A concrete instance of C14: three patches of equal padded size, one of them
out of bounds, and a packing of three rectangles of that size. -/
theorem size_lookup_never_fails_witness :
    packedPatchesImage sampleImread "images".toList initialCache samplePatches samplePacking
        (buildSizeMap samplePacking) { w := 68, h := 68 }
      ≠ Except.error CompositeFault.assertionFailed :=
  (size_lookup_never_fails sampleImread "images".toList initialCache samplePatches samplePacking
    { w := 68, h := 68 } (List.Perm.of_eq (by decide))).1

/-! ## Compositing: patches outside the source image -/

theorem rectAnd_eq_self_iff (a : Rect) (cols rows : Int)
    (ha : 0 ≤ a.x ∧ 0 ≤ a.y ∧ 2 ≤ a.width ∧ 2 ≤ a.height) :
    rectAnd a { x := 0, y := 0, width := cols, height := rows } = a ↔
      (a.x + a.width ≤ cols ∧ a.y + a.height ≤ rows) := by
  obtain ⟨x, y, w, h⟩ := a
  simp only [] at ha
  unfold rectAnd
  simp only []
  constructor
  · intro heq
    split at heq
    · rw [Rect.mk.injEq] at heq
      omega
    · rw [Rect.mk.injEq] at heq
      omega
  · intro hin
    rw [if_neg (by omega), Rect.mk.injEq]
    omega

theorem loadImage_consistent (imread : Str → Mat) (imageFolder : Str) (cache : ImageCache)
    (p : Patch) (hc : cacheConsistent cache) :
    cacheConsistent (loadImage imread imageFolder cache p) := by
  unfold loadImage
  split
  · rfl
  · exact hc

/-- C15: for a patch with `x0, y0 >= 0` and `W, H >= 2` and a consistent image
cache, let `cols x rows` be the size of the image that is current after lines
293-298 (`0 x 0` when the image could not be read). The test `is_inside` of line
299 holds exactly when `x0 + W <= cols` and `y0 + H <= rows`. When it does not
hold, the pass ends without fault, the canvas and the multimap are unchanged, and
the loop goes on with the next patch; when it holds, a pass that ends without
fault has composited the patch. -/
theorem out_of_bounds_patch_is_skipped (imread : Str → Mat) (imageFolder : Str)
    (packedRectangles : List rect_xywh) (st : CompositeState) (p : Patch)
    (hp : 0 ≤ p.rect.x ∧ 0 ≤ p.rect.y ∧ 2 ≤ p.rect.width ∧ 2 ≤ p.rect.height)
    (hc : cacheConsistent st.cache) :
    (rectAnd p.rect (loadImage imread imageFolder st.cache p).currentImageRect = p.rect ↔
      (p.rect.x + p.rect.width ≤ (loadImage imread imageFolder st.cache p).currentImage.cols ∧
       p.rect.y + p.rect.height ≤ (loadImage imread imageFolder st.cache p).currentImage.rows)) ∧
    (¬ (p.rect.x + p.rect.width ≤ (loadImage imread imageFolder st.cache p).currentImage.cols ∧
        p.rect.y + p.rect.height ≤ (loadImage imread imageFolder st.cache p).currentImage.rows) →
      ∃ st', packedPatchesStep imread imageFolder packedRectangles st p = Except.ok st' ∧
        st'.packedPatches = st.packedPatches ∧
        st'.sizeToRectIndexMap = st.sizeToRectIndexMap ∧
        st'.log = st.log ++ [PatchOutcome.dropped p] ∧
        cacheConsistent st'.cache ∧
        ∀ rest, packedPatchesLoop imread imageFolder packedRectangles (p :: rest) st =
          packedPatchesLoop imread imageFolder packedRectangles rest st') ∧
    ((loadImage imread imageFolder st.cache p).currentImage.cols = 0 →
      (loadImage imread imageFolder st.cache p).currentImage.rows = 0 →
      ∃ st', packedPatchesStep imread imageFolder packedRectangles st p = Except.ok st' ∧
        st'.packedPatches = st.packedPatches ∧
        st'.sizeToRectIndexMap = st.sizeToRectIndexMap ∧
        st'.log = st.log ++ [PatchOutcome.dropped p]) ∧
    ((p.rect.x + p.rect.width ≤ (loadImage imread imageFolder st.cache p).currentImage.cols ∧
      p.rect.y + p.rect.height ≤ (loadImage imread imageFolder st.cache p).currentImage.rows) →
      ∀ st', packedPatchesStep imread imageFolder packedRectangles st p = Except.ok st' →
        ∃ idx roi, st'.log = st.log ++ [PatchOutcome.composited p idx roi]) := by
  have hcons := loadImage_consistent imread imageFolder st.cache p hc
  have hiff : rectAnd p.rect (loadImage imread imageFolder st.cache p).currentImageRect = p.rect ↔
      (p.rect.x + p.rect.width ≤ (loadImage imread imageFolder st.cache p).currentImage.cols ∧
       p.rect.y + p.rect.height ≤ (loadImage imread imageFolder st.cache p).currentImage.rows) := by
    rw [hcons]
    exact rectAnd_eq_self_iff p.rect _ _ hp
  have hdrop : ¬ (p.rect.x + p.rect.width ≤ (loadImage imread imageFolder st.cache p).currentImage.cols ∧
        p.rect.y + p.rect.height ≤ (loadImage imread imageFolder st.cache p).currentImage.rows) →
      packedPatchesStep imread imageFolder packedRectangles st p = Except.ok
        { cache := loadImage imread imageFolder st.cache p,
          packedPatches := st.packedPatches,
          sizeToRectIndexMap := st.sizeToRectIndexMap,
          log := st.log ++ [PatchOutcome.dropped p] } := by
    intro hout
    have hne : rectAnd p.rect (loadImage imread imageFolder st.cache p).currentImageRect ≠ p.rect :=
      fun h => hout (hiff.mp h)
    unfold packedPatchesStep
    simp only []
    rw [if_pos hne]
  refine ⟨hiff, ?_, ?_, ?_⟩
  · intro hout
    refine ⟨_, hdrop hout, rfl, rfl, rfl, hcons, ?_⟩
    intro rest
    rw [packedPatchesLoop, hdrop hout]
  · intro h0 h1
    have hout : ¬ (p.rect.x + p.rect.width ≤ (loadImage imread imageFolder st.cache p).currentImage.cols ∧
        p.rect.y + p.rect.height ≤ (loadImage imread imageFolder st.cache p).currentImage.rows) := by
      rw [h0, h1]
      omega
    exact ⟨_, hdrop hout, rfl, rfl, rfl⟩
  · intro hin st' hstep
    rcases packedPatchesStep_ok imread imageFolder packedRectangles st st' p hstep with
      ⟨hne, _⟩ | ⟨_, index, rect, _, _, _, hst'⟩
    · exact absurd (hiff.mpr hin) hne
    · exact ⟨index, roiOf rect, by rw [hst']⟩

/-- A concrete instance of C15: the patch at `(630, 5)` of size 30 x 30 in the
image of 640 x 480 pixels. -/
theorem out_of_bounds_patch_is_skipped_witness :
    ∃ st', packedPatchesStep sampleImread "images".toList samplePacking
        { cache := initialCache, packedPatches := { cols := 68, rows := 68, pixel := fun _ _ => 0 },
          sizeToRectIndexMap := buildSizeMap samplePacking, log := [] }
        (squarePatch "IMG_0013.JPG" 630 5) = Except.ok st' ∧
      st'.sizeToRectIndexMap = buildSizeMap samplePacking ∧
      st'.log = [PatchOutcome.dropped (squarePatch "IMG_0013.JPG" 630 5)] := by
  obtain ⟨st', h1, _, h3, h4, _⟩ :=
    (out_of_bounds_patch_is_skipped sampleImread "images".toList samplePacking
      { cache := initialCache, packedPatches := { cols := 68, rows := 68, pixel := fun _ _ => 0 },
        sizeToRectIndexMap := buildSizeMap samplePacking, log := [] }
      (squarePatch "IMG_0013.JPG" 630 5) (by decide) rfl).2.1 (by decide)
  exact ⟨st', h1, h3, h4⟩

/-! ## Compositing: how many patches are packed and composited -/

theorem patchesOf_length (features : List (Feature ℝ)) (patchesIndices : List Nat) :
    (patchesOf features patchesIndices).length
      = (patchesIndices.filter (passesGeometry features)).length := by
  unfold patchesOf
  induction patchesIndices with
  | nil => rfl
  | cons i rest ih =>
    rw [List.filterMap_cons, List.filter_cons]
    cases hf : features[i]? with
    | none =>
      simp only [passesGeometry, hf]
      exact ih
    | some f =>
      cases hp : featureToPatch f with
      | none =>
        simp only [passesGeometry, hf, hp, Option.isSome_none]
        exact ih
      | some q =>
        simp only [passesGeometry, hf, hp, Option.isSome_some, if_true, List.length_cons]
        rw [ih]

theorem packedPatchesLoop_log_length (imread : Str → Mat) (imageFolder : Str)
    (rects : List rect_xywh) :
    ∀ (patches : List Patch) (st st' : CompositeState),
      packedPatchesLoop imread imageFolder rects patches st = Except.ok st' →
      st'.log.length = st.log.length + patches.length := by
  intro patches
  induction patches with
  | nil =>
    intro st st' h
    rw [packedPatchesLoop] at h
    rw [← Except.ok.inj h]
    rfl
  | cons p rest ih =>
    intro st st' h
    rw [packedPatchesLoop] at h
    cases hstep : packedPatchesStep imread imageFolder rects st p with
    | error e => rw [hstep] at h; cases h
    | ok st1 =>
      rw [hstep] at h
      have h1 := ih st1 st' h
      rcases packedPatchesStep_ok imread imageFolder rects st st1 p hstep with
        ⟨_, hst1⟩ | ⟨_, index, rect, _, _, _, hst1⟩
      · rw [h1, hst1]
        simp only [List.length_append, List.length_cons, List.length_nil]
        omega
      · rw [h1, hst1]
        simp only [List.length_append, List.length_cons, List.length_nil]
        omega

theorem composited_add_dropped (log : List PatchOutcome) :
    compositedCount log + droppedCount log = log.length := by
  induction log with
  | nil => rfl
  | cons o rest ih =>
    cases o with
    | dropped p =>
      simp only [compositedCount, droppedCount, List.filter_cons, List.length_cons] at ih ⊢
      simp only [if_true, Bool.false_eq_true, if_false, List.length_cons]
      omega
    | composited p i r =>
      simp only [compositedCount, droppedCount, List.filter_cons, List.length_cons] at ih ⊢
      simp only [if_true, Bool.false_eq_true, if_false, List.length_cons]
      omega

theorem patchesOf_identity_20 :
    patchesOf [frameFeature 20 20 10 0 0 10] [0] = [squarePatch "IMG_0013.JPG" 5 5] := by
  have h := identityFrame_patch (frameFeature 20 20 10 0 0 10)
    (by simp [frameFeature]) (by simp only [frameFeature]; norm_num)
    (by simp only [frameFeature]; norm_num) (by simp only [frameFeature]; norm_num)
    (by simp only [frameFeature]; norm_num)
  simp only [frameFeature] at h
  have e1 : ⌊(20 : ℝ) - 15⌋ = 5 := by
    rw [Int.floor_eq_iff]; constructor <;> norm_num
  have e2 : ⌈(20 : ℝ) + 15⌉ = 35 := by
    rw [Int.ceil_eq_iff]; constructor <;> norm_num
  rw [e1, e2] at h
  simp only [patchesOf, List.filterMap_cons, List.filterMap_nil, List.getElem?_cons_zero,
    frameFeature, h]
  rfl

/-- C16 (counterexample): one feature passes the geometry test, so one rectangle
is submitted to the packer; its image cannot be read, so the patch is dropped by
the bounds check when compositing. The number of submitted rectangles, 1, is not
the number that passed, 1, minus the number dropped, 1. -/
theorem dropped_patch_was_still_submitted :
    (patchesOf [frameFeature 20 20 10 0 0 10] [0]).length = 1 ∧
    (paddedRectangles (patchesOf [frameFeature 20 20 10 0 0 10] [0])).length = 1 ∧
    ∃ st, packedPatchesImage sampleImread "missing".toList initialCache
        (patchesOf [frameFeature 20 20 10 0 0 10] [0])
        [{ x := 0, y := 0, w := 34, h := 34 }]
        (buildSizeMap [{ x := 0, y := 0, w := 34, h := 34 }]) { w := 34, h := 34 } = Except.ok st ∧
      droppedCount st.log = 1 ∧
      (paddedRectangles (patchesOf [frameFeature 20 20 10 0 0 10] [0])).length ≠
        (patchesOf [frameFeature 20 20 10 0 0 10] [0]).length - droppedCount st.log := by
  rw [patchesOf_identity_20]
  refine ⟨rfl, rfl, ?_⟩
  have hd : (packedPatchesImage sampleImread "missing".toList initialCache
      [squarePatch "IMG_0013.JPG" 5 5] [{ x := 0, y := 0, w := 34, h := 34 }]
      (buildSizeMap [{ x := 0, y := 0, w := 34, h := 34 }]) { w := 34, h := 34 }).toOption.map
        (fun st => droppedCount st.log) = some 1 := by decide
  cases hrun : packedPatchesImage sampleImread "missing".toList initialCache
      [squarePatch "IMG_0013.JPG" 5 5] [{ x := 0, y := 0, w := 34, h := 34 }]
      (buildSizeMap [{ x := 0, y := 0, w := 34, h := 34 }]) { w := 34, h := 34 } with
  | error e => rw [hrun] at hd; cases hd
  | ok st =>
    rw [hrun] at hd
    have hd1 : droppedCount st.log = 1 := Option.some.inj hd
    refine ⟨st, rfl, hd1, ?_⟩
    rw [hd1]
    decide

/-- C16 (amended): for every group, the number of rectangles submitted to the
packer equals the number of patches, which is the number of sampled features
that pass the geometry test; the bounds check comes after packing and takes
nothing away from it. When compositing runs to its end, the number of composited
patches is that number minus the number of patches dropped by the bounds check. -/
theorem submitted_equals_passed (features : List (Feature ℝ)) (patchesIndices : List Nat)
    (imread : Str → Mat) (imageFolder : Str) (cache : ImageCache)
    (packedRectangles : List rect_xywh) (sizeToRectIndexMap : SizeMap)
    (packedImageSize : rect_wh) (st : CompositeState)
    (hrun : packedPatchesImage imread imageFolder cache (patchesOf features patchesIndices)
      packedRectangles sizeToRectIndexMap packedImageSize = Except.ok st) :
    (paddedRectangles (patchesOf features patchesIndices)).length
      = (patchesIndices.filter (passesGeometry features)).length ∧
    (patchesOf features patchesIndices).length
      = (patchesIndices.filter (passesGeometry features)).length ∧
    compositedCount st.log + droppedCount st.log
      = (patchesIndices.filter (passesGeometry features)).length ∧
    compositedCount st.log
      = (patchesIndices.filter (passesGeometry features)).length - droppedCount st.log := by
  have hlen := patchesOf_length features patchesIndices
  unfold packedPatchesImage at hrun
  have hlog := packedPatchesLoop_log_length imread imageFolder packedRectangles _ _ st hrun
  simp only [List.length_nil, Nat.zero_add] at hlog
  have hsum := composited_add_dropped st.log
  refine ⟨?_, hlen, ?_, ?_⟩
  · rw [← hlen]
    simp only [paddedRectangles, List.length_map]
  · rw [hsum, hlog, hlen]
  · rw [← hlen, ← hlog]
    omega

/-- A concrete instance of C16 (amended): the group of the counterexample. -/
theorem submitted_equals_passed_witness :
    (paddedRectangles (patchesOf [frameFeature 20 20 10 0 0 10] [0])).length
      = ([0].filter (passesGeometry [frameFeature 20 20 10 0 0 10])).length ∧
    ∃ st : CompositeState, compositedCount st.log
      = ([0].filter (passesGeometry [frameFeature 20 20 10 0 0 10])).length
        - droppedCount st.log := by
  have hd : (packedPatchesImage sampleImread "missing".toList initialCache
      [squarePatch "IMG_0013.JPG" 5 5] [{ x := 0, y := 0, w := 34, h := 34 }]
      (buildSizeMap [{ x := 0, y := 0, w := 34, h := 34 }]) { w := 34, h := 34 }).toOption.map
        (fun st => droppedCount st.log) = some 1 := by decide
  cases hrun : packedPatchesImage sampleImread "missing".toList initialCache
      [squarePatch "IMG_0013.JPG" 5 5] [{ x := 0, y := 0, w := 34, h := 34 }]
      (buildSizeMap [{ x := 0, y := 0, w := 34, h := 34 }]) { w := 34, h := 34 } with
  | error e => rw [hrun] at hd; cases hd
  | ok st =>
    obtain ⟨h1, _, _, h4⟩ := submitted_equals_passed [frameFeature 20 20 10 0 0 10] [0]
      sampleImread "missing".toList initialCache [{ x := 0, y := 0, w := 34, h := 34 }]
      (buildSizeMap [{ x := 0, y := 0, w := 34, h := 34 }]) { w := 34, h := 34 } st
      (by rw [patchesOf_identity_20]; exact hrun)
    exact ⟨h1, st, h4⟩

/-! ## Rectangle packing: validity of the packing -/

theorem rectsDisjoint_symm {a b : rect_xywh} (h : rectsDisjoint a b) : rectsDisjoint b a := by
  unfold rectsDisjoint at h ⊢
  omega

theorem rectsDisjoint_of_within {a b c : rect_xywh} (hab : rectWithin a b)
    (hbc : rectsDisjoint b c) : rectsDisjoint a c := by
  unfold rectWithin at hab
  unfold rectsDisjoint at hbc ⊢
  omega

theorem rectWithin_refl (a : rect_xywh) : rectWithin a a := by
  unfold rectWithin
  omega

theorem insertRect_spec :
    ∀ (spaces : List rect_xywh) (w h : Int) (p : rect_xywh) (spaces' : List rect_xywh),
      0 ≤ w → 0 ≤ h → List.Pairwise rectsDisjoint spaces →
      insertRect spaces w h = some (p, spaces') →
      p.w = w ∧ p.h = h ∧
      (∃ s ∈ spaces, rectWithin p s) ∧
      (∀ t ∈ spaces', ∃ s ∈ spaces, rectWithin t s) ∧
      List.Pairwise rectsDisjoint spaces' ∧
      (∀ t ∈ spaces', rectsDisjoint t p) := by
  intro spaces
  induction spaces with
  | nil => intro w h p spaces' _ _ _ hins; cases hins
  | cons s rest ih =>
    intro w h p spaces' hw hh hpw hins
    rw [List.pairwise_cons] at hpw
    obtain ⟨hs, hrest⟩ := hpw
    rw [insertRect] at hins
    by_cases hfit : w ≤ s.w ∧ h ≤ s.h
    · rw [if_pos hfit] at hins
      have hinj := Option.some.inj hins
      rw [Prod.mk.injEq] at hinj
      obtain ⟨hp, hsp⟩ := hinj
      subst hp
      subst hsp
      have hR : rectWithin { x := s.x + w, y := s.y, w := s.w - w, h := h } s := by
        unfold rectWithin; simp only []; omega
      have hB : rectWithin { x := s.x, y := s.y + h, w := s.w, h := s.h - h } s := by
        unfold rectWithin; simp only []; omega
      refine ⟨rfl, rfl, ⟨s, List.mem_cons_self _ _, ?_⟩, ?_, ?_, ?_⟩
      · unfold rectWithin; simp only []; omega
      · intro t ht
        rcases List.mem_cons.mp ht with ht | ht
        · exact ⟨s, List.mem_cons_self _ _, ht ▸ hR⟩
        · rcases List.mem_cons.mp ht with ht | ht
          · exact ⟨s, List.mem_cons_self _ _, ht ▸ hB⟩
          · exact ⟨t, List.mem_cons_of_mem _ ht, rectWithin_refl t⟩
      · rw [List.pairwise_cons, List.pairwise_cons]
        refine ⟨?_, ?_, hrest⟩
        · intro t ht
          rcases List.mem_cons.mp ht with ht | ht
          · subst ht
            unfold rectsDisjoint; simp only []; omega
          · exact rectsDisjoint_of_within hR (hs t ht)
        · intro t ht
          exact rectsDisjoint_of_within hB (hs t ht)
      · intro t ht
        rcases List.mem_cons.mp ht with ht | ht
        · subst ht
          unfold rectsDisjoint; simp only []; omega
        · rcases List.mem_cons.mp ht with ht | ht
          · subst ht
            unfold rectsDisjoint; simp only []; omega
          · have hps : rectWithin { x := s.x, y := s.y, w := w, h := h } s := by
              unfold rectWithin; simp only []; omega
            exact rectsDisjoint_symm (rectsDisjoint_of_within hps (hs t ht))
    · rw [if_neg hfit] at hins
      cases hrec : insertRect rest w h with
      | none => rw [hrec] at hins; cases hins
      | some res =>
        obtain ⟨q, rest'⟩ := res
        rw [hrec] at hins
        have hinj := Option.some.inj hins
        rw [Prod.mk.injEq] at hinj
        obtain ⟨hp, hsp⟩ := hinj
        subst hp
        subst hsp
        obtain ⟨e1, e2, ⟨s0, hs0, hq⟩, e4, e5, e6⟩ := ih w h q rest' hw hh hrest hrec
        refine ⟨e1, e2, ⟨s0, List.mem_cons_of_mem _ hs0, hq⟩, ?_, ?_, ?_⟩
        · intro t ht
          rcases List.mem_cons.mp ht with ht | ht
          · exact ⟨s, List.mem_cons_self _ _, ht ▸ rectWithin_refl s⟩
          · obtain ⟨t0, ht0, htt⟩ := e4 t ht
            exact ⟨t0, List.mem_cons_of_mem _ ht0, htt⟩
        · rw [List.pairwise_cons]
          refine ⟨?_, e5⟩
          intro t ht
          obtain ⟨t0, ht0, htt⟩ := e4 t ht
          exact rectsDisjoint_symm (rectsDisjoint_of_within htt (rectsDisjoint_symm (hs t0 ht0)))
        · intro t ht
          rcases List.mem_cons.mp ht with ht | ht
          · subst ht
            exact rectsDisjoint_symm (rectsDisjoint_of_within hq (rectsDisjoint_symm (hs s0 hs0)))
          · exact e6 t ht
theorem insertRect_size :
    ∀ (spaces : List rect_xywh) (w h : Int) (p : rect_xywh) (spaces' : List rect_xywh),
      insertRect spaces w h = some (p, spaces') → p.w = w ∧ p.h = h := by
  intro spaces
  induction spaces with
  | nil => intro w h p spaces' hins; cases hins
  | cons s rest ih =>
    intro w h p spaces' hins
    rw [insertRect] at hins
    by_cases hfit : w ≤ s.w ∧ h ≤ s.h
    · rw [if_pos hfit] at hins
      have hinj := Option.some.inj hins
      rw [Prod.mk.injEq] at hinj
      rw [← hinj.1]
      exact ⟨rfl, rfl⟩
    · rw [if_neg hfit] at hins
      cases hrec : insertRect rest w h with
      | none => rw [hrec] at hins; cases hins
      | some res =>
        obtain ⟨q, rest'⟩ := res
        rw [hrec] at hins
        have hinj := Option.some.inj hins
        rw [Prod.mk.injEq] at hinj
        rw [← hinj.1]
        exact ih w h q rest' hrec

theorem placeAll_sizes :
    ∀ (order spaces : List rect_xywh),
      (placeAll order spaces).map (fun r => (r.1.w, r.1.h)) = order.map (fun r => (r.w, r.h)) := by
  intro order
  induction order with
  | nil => intro spaces; rfl
  | cons r rest ih =>
    intro spaces
    rw [placeAll]
    cases hins : insertRect spaces r.w r.h with
    | none =>
      simp only [List.map_cons, ih]
    | some res =>
      obtain ⟨p, spaces'⟩ := res
      obtain ⟨e1, e2⟩ := insertRect_size spaces r.w r.h p spaces' hins
      simp only [List.map_cons, ih, e1, e2]

theorem placeAll_valid (side : Int) :
    ∀ (order spaces placed : List rect_xywh),
      (∀ r ∈ order, 0 ≤ r.w ∧ 0 ≤ r.h) →
      List.Pairwise rectsDisjoint spaces →
      (∀ s ∈ spaces, 0 ≤ s.x ∧ 0 ≤ s.y ∧ s.x + s.w ≤ side ∧ s.y + s.h ≤ side) →
      (∀ s ∈ spaces, ∀ q ∈ placed, rectsDisjoint s q) →
      List.Pairwise rectsDisjoint (placedRects (placeAll order spaces)) ∧
      (∀ r ∈ placedRects (placeAll order spaces),
        (0 ≤ r.x ∧ 0 ≤ r.y ∧ r.x + r.w ≤ side ∧ r.y + r.h ≤ side) ∧
        ∀ q ∈ placed, rectsDisjoint r q) := by
  intro order
  induction order with
  | nil =>
    intro spaces placed _ _ _ _
    exact ⟨List.Pairwise.nil, by intro r hr; cases hr⟩
  | cons r rest ih =>
    intro spaces placed hpos hpw hin hdis
    have hposr := hpos r (List.mem_cons_self _ _)
    have hposrest : ∀ r' ∈ rest, 0 ≤ r'.w ∧ 0 ≤ r'.h :=
      fun r' hr' => hpos r' (List.mem_cons_of_mem _ hr')
    rw [placeAll]
    cases hins : insertRect spaces r.w r.h with
    | none =>
      simp only []
      have hpl : placedRects ((r, false) :: placeAll rest spaces)
          = placedRects (placeAll rest spaces) := by
        simp [placedRects]
      rw [hpl]
      exact ih spaces placed hposrest hpw hin hdis
    | some res =>
      obtain ⟨p, spaces'⟩ := res
      simp only []
      have hpl : placedRects ((p, true) :: placeAll rest spaces')
          = p :: placedRects (placeAll rest spaces') := by
        simp [placedRects]
      rw [hpl]
      obtain ⟨_, _, ⟨s0, hs0, hps0⟩, e4, e5, e6⟩ :=
        insertRect_spec spaces r.w r.h p spaces' hposr.1 hposr.2 hpw hins
      have hin' : ∀ s ∈ spaces', 0 ≤ s.x ∧ 0 ≤ s.y ∧ s.x + s.w ≤ side ∧ s.y + s.h ≤ side := by
        intro t ht
        obtain ⟨t0, ht0, htt⟩ := e4 t ht
        have := hin t0 ht0
        unfold rectWithin at htt
        omega
      have hdis' : ∀ s ∈ spaces', ∀ q ∈ p :: placed, rectsDisjoint s q := by
        intro t ht q hq
        rcases List.mem_cons.mp hq with hq | hq
        · subst hq
          exact e6 t ht
        · obtain ⟨t0, ht0, htt⟩ := e4 t ht
          exact rectsDisjoint_of_within htt (hdis t0 ht0 q hq)
      obtain ⟨a1, a2⟩ := ih spaces' (p :: placed) hposrest e5 hin' hdis'
      constructor
      · rw [List.pairwise_cons]
        refine ⟨?_, a1⟩
        intro r' hr'
        exact rectsDisjoint_symm ((a2 r' hr').2 p (List.mem_cons_self _ _))
      · intro r' hr'
        rcases List.mem_cons.mp hr' with hr' | hr'
        · subst hr'
          constructor
          · have := hin s0 hs0
            unfold rectWithin at hps0
            omega
          · intro q hq
            exact rectsDisjoint_of_within hps0 (hdis s0 hs0 q hq)
        · exact ⟨(a2 r' hr').1, fun q hq => (a2 r' hr').2 q (List.mem_cons_of_mem _ hq)⟩

theorem growLoop_eq (order : List rect_xywh) (maxSide step : Int) :
    ∀ (fuel : Nat) (side : Int),
      ∃ s, s ≤ maxSide ∧ growLoop order maxSide step fuel side = packInto s order := by
  intro fuel
  induction fuel with
  | zero => intro side; exact ⟨maxSide, le_refl _, rfl⟩
  | succ fuel ih =>
    intro side
    rw [growLoop]
    by_cases h1 : maxSide ≤ side
    · rw [if_pos h1]; exact ⟨maxSide, le_refl _, rfl⟩
    · rw [if_neg h1]
      by_cases h2 : (packInto side order).all (fun r => r.2) = true
      · rw [if_pos h2]; exact ⟨side, by omega, rfl⟩
      · rw [if_neg h2]; exact ih _

theorem rectsBound_ge (rs : List rect_xywh) :
    ∀ r ∈ rs, r.x + r.w ≤ (rectsBound rs).w ∧ r.y + r.h ≤ (rectsBound rs).h := by
  induction rs with
  | nil => intro r hr; cases hr
  | cons a rest ih =>
    intro r hr
    rw [rectsBound]
    simp only []
    rcases List.mem_cons.mp hr with hr | hr
    · subst hr
      exact ⟨le_max_left _ _, le_max_left _ _⟩
    · exact ⟨le_trans (ih r hr).1 (le_max_right _ _), le_trans (ih r hr).2 (le_max_right _ _)⟩

theorem rectsBound_le (rs : List rect_xywh) (side : Int) (hside : 0 ≤ side)
    (h : ∀ r ∈ rs, r.x + r.w ≤ side ∧ r.y + r.h ≤ side) :
    (rectsBound rs).w ≤ side ∧ (rectsBound rs).h ≤ side := by
  induction rs with
  | nil => exact ⟨hside, hside⟩
  | cons a rest ih =>
    rw [rectsBound]
    simp only []
    have ha := h a (List.mem_cons_self _ _)
    have hr := ih (fun r hr => h r (List.mem_cons_of_mem _ hr))
    exact ⟨max_le ha.1 hr.1, max_le ha.2 hr.2⟩

theorem placed_add_failed (out : List (rect_xywh × Bool)) :
    (out.filter (fun r => !r.2)).length + (placedRects out).length = out.length := by
  unfold placedRects
  induction out with
  | nil => rfl
  | cons a rest ih =>
    obtain ⟨r, b⟩ := a
    cases b
    · simp only [List.filter_cons, Bool.not_false, if_true, Bool.false_eq_true, if_false,
        List.length_cons, List.length_map] at ih ⊢
      omega
    · simp only [List.filter_cons, Bool.not_true, if_true, Bool.false_eq_true, if_false,
        List.length_cons, List.length_map, List.map_cons] at ih ⊢
      omega

theorem paddedRectangles_nonneg (patches : List Patch)
    (hp : ∀ p ∈ patches, 2 ≤ p.rect.width ∧ p.rect.width ≤ 1996 ∧
      2 ≤ p.rect.height ∧ p.rect.height ≤ 1996) :
    ∀ r ∈ paddedRectangles patches, 0 ≤ r.w ∧ 0 ≤ r.h := by
  intro r hr
  simp only [paddedRectangles, List.mem_map] at hr
  obtain ⟨p, hpm, rfl⟩ := hr
  obtain ⟨h1, h2, h3, h4⟩ := hp p hpm
  simp only [padded_value _ h1 h2, padded_value _ h3 h4]
  omega

/-- C17: for the rectangles that `packRectangles` submits for a list of accepted
patches (`2 <= W, H <= 1996`), and for every starting candidate size, the packing
returned by the packer of section 4.4 is valid: no two placed rectangles overlap,
every placed rectangle lies in the canvas of the returned size, neither side of
that canvas exceeds 2000; moreover the returned rectangles have the submitted
sizes, in some order, and every rectangle is either placed or counted as a
failure. -/
theorem packing_is_valid (startSide : Int) (patches : List Patch)
    (hp : ∀ p ∈ patches, 2 ≤ p.rect.width ∧ p.rect.width ≤ 1996 ∧
      2 ≤ p.rect.height ∧ p.rect.height ≤ 1996) :
    List.Pairwise rectsDisjoint (placedRects (packRectangles startSide patches).rectangles) ∧
    (∀ r ∈ placedRects (packRectangles startSide patches).rectangles,
      0 ≤ r.x ∧ 0 ≤ r.y ∧
      r.x + r.w ≤ (packRectangles startSide patches).result_size.w ∧
      r.y + r.h ≤ (packRectangles startSide patches).result_size.h) ∧
    (packRectangles startSide patches).result_size.w ≤ 2000 ∧
    (packRectangles startSide patches).result_size.h ≤ 2000 ∧
    List.Perm ((packRectangles startSide patches).rectangles.map (fun r => (r.1.w, r.1.h)))
      ((paddedRectangles patches).map (fun r => (r.w, r.h))) ∧
    (packRectangles startSide patches).failCount
      + (placedRects (packRectangles startSide patches).rectangles).length = patches.length := by
  have hsortperm : List.Perm
      ((paddedRectangles patches).insertionSort (fun a b => b.w * b.h ≤ a.w * a.h))
      (paddedRectangles patches) := List.perm_insertionSort _ _
  have hpos : ∀ r ∈ (paddedRectangles patches).insertionSort (fun a b => b.w * b.h ≤ a.w * a.h),
      0 ≤ r.w ∧ 0 ≤ r.h :=
    fun r hr => paddedRectangles_nonneg patches hp r (hsortperm.subset hr)
  obtain ⟨s, hs, hgrow⟩ := growLoop_eq
    ((paddedRectangles patches).insertionSort (fun a b => b.w * b.h ≤ a.w * a.h))
    max_side ((discard_step.natAbs : Nat) : Int) (max_side.toNat + 1) startSide
  have hout : (packRectangles startSide patches).rectangles = packInto s
      ((paddedRectangles patches).insertionSort (fun a b => b.w * b.h ≤ a.w * a.h)) := hgrow
  have hsize : (packRectangles startSide patches).result_size =
      rectsBound (placedRects (packRectangles startSide patches).rectangles) := rfl
  have hfail : (packRectangles startSide patches).failCount =
      ((packRectangles startSide patches).rectangles.filter (fun r => !r.2)).length := rfl
  rw [hsize, hfail, hout]
  obtain ⟨v1, v2⟩ := placeAll_valid s
    ((paddedRectangles patches).insertionSort (fun a b => b.w * b.h ≤ a.w * a.h))
    [{ x := 0, y := 0, w := s, h := s }] [] hpos
    (List.pairwise_singleton _ _)
    (by
      intro t ht
      rw [List.mem_singleton] at ht
      subst ht
      simp only []
      omega)
    (by intro t _ q hq; cases hq)
  have hs2000 : s ≤ 2000 := hs
  have hbound := rectsBound_le _ 2000 (by omega)
    (fun r hr => ⟨by have := (v2 r hr).1; omega, by have := (v2 r hr).1; omega⟩)
  refine ⟨v1, ?_, hbound.1, hbound.2, ?_, ?_⟩
  · intro r hr
    have h1 := (v2 r hr).1
    have h2 := rectsBound_ge _ r hr
    exact ⟨h1.1, h1.2.1, h2.1, h2.2⟩
  · unfold packInto
    rw [placeAll_sizes]
    exact hsortperm.map _
  · rw [placed_add_failed]
    have hlen : (packInto s
        ((paddedRectangles patches).insertionSort (fun a b => b.w * b.h ≤ a.w * a.h))).length
        = ((packInto s ((paddedRectangles patches).insertionSort
            (fun a b => b.w * b.h ≤ a.w * a.h))).map (fun r => (r.1.w, r.1.h))).length := by
      rw [List.length_map]
    rw [hlen]
    unfold packInto
    rw [placeAll_sizes, List.length_map, hsortperm.length_eq]
    simp only [paddedRectangles, List.length_map]

/-- A concrete instance of C17: the three patches of 30 x 30 pixels, starting
from a canvas of side 40. -/
theorem packing_is_valid_witness :
    List.Pairwise rectsDisjoint (placedRects (packRectangles 40 samplePatches).rectangles) ∧
    (packRectangles 40 samplePatches).result_size = { w := 68, h := 68 } ∧
    (packRectangles 40 samplePatches).failCount = 0 :=
  ⟨(packing_is_valid 40 samplePatches (by decide)).1, by decide, by decide⟩

end FeaturePatches
